import Mathlib

set_option maxRecDepth 8192
set_option exponentiation.threshold 2000

/-!
Verification of the ScholarAI file-ingestion and prompt-assembly pipeline.

The repository is a Next.js chat client with two near-identical backend
request handlers (a local-model variant and a cloud-model variant).  Each
handler decodes uploaded file payloads, normalizes every file into a bounded
text block, concatenates the blocks into one prompt string and forwards it to
an external model API.

JS strings are modeled as lists of characters (`JStr`).  The JS string
operations the source uses (split, trim, substring, includes, startsWith,
endsWith, toLowerCase, template interpolation of integers) are embedded as
Lean functions on `JStr`.  The helper functions `decodeImageContent`,
`decodeTextContent`, `processCSVContent` and `processJSONContent` are
character-identical between the two backend variants, so each is defined
once.
-/

/-- JS strings, modeled as lists of characters. -/
abbrev JStr := List Char

/-- Coerce a Lean string literal to the JS-string model. -/
def str (s : String) : JStr := s.data

/-- The whitespace characters removed by JS `String.prototype.trim` that can
occur in this pipeline (ASCII whitespace, NBSP and the BOM). -/
def jsIsWs (c : Char) : Bool :=
  c = ' ' || c = '\t' || c = '\n' || c = '\r' ||
  c = '\x0b' || c = '\x0c' || c = '\u00A0' || c = '\uFEFF'

/-- JS `s.trim()`. -/
def jsTrim (s : JStr) : JStr :=
  ((s.dropWhile jsIsWs).reverse.dropWhile jsIsWs).reverse

/-- The decimal digit character for `n < 10`. -/
def digitChar (n : Nat) : Char := Char.ofNat (48 + n)

/-- Fuel-based worker for decimal rendering; the fuel only needs to dominate
the number of digits, and `natReprAux_congr` shows the result is
fuel-independent above that. -/
def natReprAux : Nat → Nat → JStr
  | n, 0 => [digitChar n]
  | n, fuel + 1 =>
    if n < 10 then [digitChar n]
    else natReprAux (n / 10) fuel ++ [digitChar (n % 10)]

/-- Decimal rendering of a natural number, as JS template interpolation
renders a non-negative integer. -/
def natRepr (n : Nat) : JStr := natReprAux n n

/-- Decimal rendering of an integer. -/
def intRepr (m : Int) : JStr :=
  if m < 0 then '-' :: natRepr m.natAbs else natRepr m.toNat

/-- Helper function to decode base64 content for images (identical in both
backend variants).  `base64Content.split(',')[1]` is the segment after the
first comma; it is absent when there is no comma and falsy when empty. -/
def decodeImageContent (base64Content : JStr) : JStr :=
  match (base64Content.splitOn ',')[1]? with
  | none => str "[Image content could not be decoded]"
  | some [] => str "[Image content could not be decoded]"
  | some d => str "[Image file detected - Base64 encoded image with " ++
      natRepr d.length ++ str " characters of data]"

/-- `decodedContent.charCodeAt(0) === 0xFEFF` guarded slice. -/
def stripBOM (s : JStr) : JStr :=
  match s with
  | [] => []
  | c :: t => if c = '\uFEFF' then t else s

/-- JS `content.replace(/\r\n/g, '\n')`: one left-to-right scan. -/
def crlfToLf : JStr → JStr
  | [] => []
  | [c] => [c]
  | c :: d :: t =>
    if c = '\r' && d = '\n' then '\n' :: crlfToLf t
    else c :: crlfToLf (d :: t)

/-- Helper function to clean and decode text content (identical in both
backend variants): strip a BOM, normalize CRLF then CR to LF, strip NUL
characters, trim; an empty result becomes a placeholder. -/
def decodeTextContent (content : JStr) (filename : JStr) : JStr :=
  let c1 := stripBOM content
  let c2 := (crlfToLf c1).map (fun c => if c = '\r' then '\n' else c)
  let c3 := c2.filter (fun c => c != '\x00')
  let c4 := jsTrim c3
  if c4.isEmpty then
    str "[" ++ filename ++ str " appears to be empty or contains only whitespace]"
  else c4

/-- `content.split('\n').filter(line => line.trim())`. -/
def csvLines (content : JStr) : List JStr :=
  (content.splitOn '\n').filter (fun l => !(jsTrim l).isEmpty)

/-- Helper function to extract text from CSV (identical in both backend
variants). -/
def processCSVContent (content : JStr) (filename : JStr) : JStr :=
  let lines := csvLines content
  if lines.isEmpty then str "[" ++ filename ++ str " appears to be empty]"
  else
    let preview := List.intercalate (str "\n") (lines.take 20)
    let summary := str "CSV File: " ++ filename ++ str "\nRows: " ++
      natRepr lines.length ++ str "\nFirst 20 rows:\n" ++ preview
    if lines.length > 20 then
      summary ++ str "\n\n... and " ++ natRepr (lines.length - 20) ++ str " more rows"
    else summary

/-- The notice appended by the per-file 4000-character ceiling. -/
def truncNotice : JStr := str "\n\n[Content truncated due to length]"

/-- The post-dispatch per-file ceiling applied to every decoded content
block: `if (decodedContent.length > 4000) decodedContent =
decodedContent.substring(0, 4000) + '\n\n[Content truncated due to length]'`. -/
def clamp4000 (s : JStr) : JStr :=
  if s.length > 4000 then s.take 4000 ++ truncNotice else s

/-! ## JSON values, `JSON.stringify(·, null, 2)` and `JSON.parse`

`JSON.parse` stores every number as an IEEE-754 double.  Numbers within the
finite double range are modeled as scaled decimals `m × 10^e` (an `Int`
mantissa and an `Int` exponent); the printer renders them in the
grammar-valid form `m` or `me` (for example `15e-1`), which the parser maps
back to the same pair.  A number token whose exact value lies outside the
finite double range rounds to `Infinity` or `-Infinity`; the model keeps
that outcome as a dedicated constructor `inf`, which `JSON.stringify`
renders as `null` (non-finite numbers have no JSON representation), so such
a value does not survive a print/re-parse round trip — exactly as in the
program.  Everything else follows the ECMA-404 grammar that `JSON.parse`
accepts and the layout `JSON.stringify(value, null, 2)` produces: 2-space
indentation, one array element or object member per line, `": "` after
keys, `[]`/`{}` for empty containers, and string escaping of quote,
backslash and control characters. -/

inductive Json where
  | null
  | bool (b : Bool)
  | num (m : Int) (e : Int)
  | inf (neg : Bool)
  | str (s : JStr)
  | arr (elems : List Json)
  | obj (fields : List (JStr × Json))

/-- `n` spaces of indentation. -/
def spacesJ (n : Nat) : JStr := List.replicate n ' '

/-- Lower-case hex digit for `n < 16`. -/
def hexDigit (n : Nat) : Char := if n < 10 then digitChar n else Char.ofNat (87 + n)

/-- How `JSON.stringify` escapes one character inside a string literal. -/
def escC (c : Char) : JStr :=
  if c = '"' then ['\\', '"']
  else if c = '\\' then ['\\', '\\']
  else if c = '\n' then ['\\', 'n']
  else if c = '\r' then ['\\', 'r']
  else if c = '\t' then ['\\', 't']
  else if c = '\x08' then ['\\', 'b']
  else if c = '\x0c' then ['\\', 'f']
  else if c.toNat < 32 then
    ['\\', 'u', '0', '0', hexDigit (c.toNat / 16), hexDigit (c.toNat % 16)]
  else [c]

def escStr : JStr → JStr
  | [] => []
  | c :: t => escC c ++ escStr t

/-- A JSON string literal: quote, escaped body, quote. -/
def quoteStr (s : JStr) : JStr := '"' :: (escStr s ++ ['"'])

/-- Rendering of the scaled-decimal number `m × 10^e`. -/
def numRepr (m e : Int) : JStr := intRepr m ++ (if e = 0 then [] else 'e' :: intRepr e)

mutual

/-- `JSON.stringify(v, null, 2)` at indentation level `ind`. -/
def ppV (ind : Nat) : Json → JStr
  | .null => str "null"
  | .bool true => str "true"
  | .bool false => str "false"
  | .num m e => numRepr m e
  | .inf _ => str "null"
  | .str s => quoteStr s
  | .arr [] => str "[]"
  | .arr (x :: xs) =>
      '[' :: (ppItems (ind + 2) (x :: xs) ++ ('\n' :: (spacesJ ind ++ [']'])))
  | .obj [] => str "{}"
  | .obj (kv :: kvs) =>
      '{' :: (ppFields (ind + 2) (kv :: kvs) ++ ('\n' :: (spacesJ ind ++ ['}'])))

/-- The element lines of a pretty-printed array: each element on its own
line at indentation `ind`, separated by commas. -/
def ppItems (ind : Nat) : List Json → JStr
  | [] => []
  | x :: xs =>
      ('\n' :: (spacesJ ind ++ ppV ind x)) ++
        (match xs with
         | [] => []
         | _ :: _ => ',' :: ppItems ind xs)

/-- The member lines of a pretty-printed object. -/
def ppFields (ind : Nat) : List (JStr × Json) → JStr
  | [] => []
  | (k, v) :: kvs =>
      ('\n' :: (spacesJ ind ++ (quoteStr k ++ (':' :: (' ' :: ppV ind v))))) ++
        (match kvs with
         | [] => []
         | _ :: _ => ',' :: ppFields ind kvs)

end

/-- `JSON.stringify(v, null, 2)`. -/
def jsonStringify2 (v : Json) : JStr := ppV 0 v

def isDigitCh (c : Char) : Bool := 48 ≤ c.toNat && c.toNat ≤ 57

def digitVal (c : Char) : Nat := c.toNat - 48

/-- The whitespace `JSON.parse` skips between tokens. -/
def isWsJson (c : Char) : Bool := c = ' ' || c = '\t' || c = '\n' || c = '\r'

def skipWs : JStr → JStr
  | [] => []
  | c :: t => if isWsJson c then skipWs t else c :: t

/-- Longest digit prefix and the rest. -/
def parseDigits : JStr → (List Char × JStr)
  | [] => ([], [])
  | c :: t =>
    if isDigitCh c then
      let (ds, r) := parseDigits t
      (c :: ds, r)
    else ([], c :: t)

def natOfDigits (ds : List Char) : Nat := ds.foldl (fun a c => 10 * a + digitVal c) 0

def hexVal (c : Char) : Option Nat :=
  if 48 ≤ c.toNat && c.toNat ≤ 57 then some (c.toNat - 48)
  else if 97 ≤ c.toNat && c.toNat ≤ 102 then some (c.toNat - 87)
  else if 65 ≤ c.toNat && c.toNat ≤ 70 then some (c.toNat - 55)
  else none

def escapeOf (e : Char) : Option Char :=
  if e = '"' then some '"'
  else if e = '\\' then some '\\'
  else if e = '/' then some '/'
  else if e = 'b' then some '\x08'
  else if e = 'f' then some '\x0c'
  else if e = 'n' then some '\n'
  else if e = 'r' then some '\r'
  else if e = 't' then some '\t'
  else none

/-- String-literal body parser, entered after the opening quote; returns the
decoded characters and the input after the closing quote.  Raw control
characters are rejected, as `JSON.parse` rejects them. -/
def parseStringBody : JStr → Option (JStr × JStr)
  | [] => none
  | c :: t =>
    if c = '"' then some ([], t)
    else if c = '\\' then
      match t with
      | [] => none
      | e :: t2 =>
        if e = 'u' then
          match t2 with
          | h1 :: h2 :: h3 :: h4 :: t3 =>
            match hexVal h1, hexVal h2, hexVal h3, hexVal h4 with
            | some a, some b, some c4, some d =>
              match parseStringBody t3 with
              | some (s, r) => some (Char.ofNat (((a * 16 + b) * 16 + c4) * 16 + d) :: s, r)
              | none => none
            | _, _, _, _ => none
          | _ => none
        else
          match escapeOf e with
          | some ec =>
            match parseStringBody t2 with
            | some (s, r) => some (ec :: s, r)
            | none => none
          | none => none
    else if c.toNat < 32 then none
    else
      match parseStringBody t with
      | some (s, r) => some (c :: s, r)
      | none => none

/-- Build the scaled decimal from sign, integer digits, fraction digits and
signed exponent digits. -/
def mkNum (neg : Bool) (ds fs : List Char) (eneg : Bool) (es : List Char) : Int × Int :=
  let m : Int := (if neg then -1 else 1) * (natOfDigits (ds ++ fs) : Int)
  let e : Int := (if eneg then -(natOfDigits es : Int) else (natOfDigits es : Int)) - (fs.length : Int)
  (m, e)

/-- Optional exponent part of a number token. -/
def parseExpPart (neg : Bool) (ds fs : List Char) (r : JStr) : Option ((Int × Int) × JStr) :=
  match r with
  | [] => some (mkNum neg ds fs false [], [])
  | c :: t =>
    if c = 'e' || c = 'E' then
      match t with
      | [] => none
      | c2 :: t2 =>
        let p := if c2 = '+' then (false, t2)
          else if c2 = '-' then (true, t2)
          else (false, c2 :: t2)
        match parseDigits p.2 with
        | ([], _) => none
        | (e1 :: es, r2) => some (mkNum neg ds fs p.1 (e1 :: es), r2)
    else some (mkNum neg ds fs false [], c :: t)

/-- Optional fraction part of a number token (a dot must be followed by at
least one digit). -/
def parseFrac (neg : Bool) (ds : List Char) (r1 : JStr) : Option ((Int × Int) × JStr) :=
  match r1 with
  | [] => some (mkNum neg ds [] false [], [])
  | c :: t =>
    if c = '.' then
      match parseDigits t with
      | ([], _) => none
      | (f :: fs, r2) => parseExpPart neg ds (f :: fs) r2
    else parseExpPart neg ds [] (c :: t)

/-- A JSON number token: optional minus, integer digits with no leading
zero, optional fraction, optional exponent. -/
def parseNumber (s : JStr) : Option ((Int × Int) × JStr) :=
  match s with
  | [] => none
  | c :: t =>
    let p := if c = '-' then (true, t) else (false, c :: t)
    match parseDigits p.2 with
    | ([], _) => none
    | (d :: ds, r1) =>
      if d = '0' && !ds.isEmpty then none
      else parseFrac p.1 (d :: ds) r1

/-- Whether the exact decimal `m × 10^e` lies outside the finite IEEE-754
double range.  Decimal-to-double conversion rounds to nearest with ties to
even, so the result is infinite exactly when the magnitude is at least
`2^1024 - 2^970`, the midpoint between the largest finite double
`2^1024 - 2^971` and `2^1024`.  For a negative exponent the comparison
`|m| / 10^k ≥ T` is written fraction-free as `|m| ≥ T * 10^k`. -/
def dblOverflow (m e : Int) : Bool :=
  if 0 ≤ e then decide (2 ^ 1024 - 2 ^ 970 ≤ m.natAbs * 10 ^ e.toNat)
  else decide ((2 ^ 1024 - 2 ^ 970) * 10 ^ (-e).toNat ≤ m.natAbs)

mutual

/-- Fuel-based value parser for the `JSON.parse` grammar; the fuel bounds
the recursion depth and `jsonParse` supplies enough for any input. -/
def parseValue : Nat → JStr → Option (Json × JStr)
  | 0, _ => none
  | fuel + 1, s =>
    match skipWs s with
    | [] => none
    | c :: r =>
      if c = '-' || isDigitCh c then
        match parseNumber (c :: r) with
        | some ((m, e), r2) =>
          if dblOverflow m e then some (.inf (decide (m < 0)), r2)
          else some (.num m e, r2)
        | none => none
      else if c = 'n' then
        match r with
        | 'u' :: 'l' :: 'l' :: r2 => some (.null, r2)
        | _ => none
      else if c = 't' then
        match r with
        | 'r' :: 'u' :: 'e' :: r2 => some (.bool true, r2)
        | _ => none
      else if c = 'f' then
        match r with
        | 'a' :: 'l' :: 's' :: 'e' :: r2 => some (.bool false, r2)
        | _ => none
      else if c = '"' then
        match parseStringBody r with
        | some (cs, r2) => some (.str cs, r2)
        | none => none
      else if c = '[' then parseElems fuel r
      else if c = '{' then parseMembers fuel r
      else none

/-- After `[`: empty array or first element. -/
def parseElems : Nat → JStr → Option (Json × JStr)
  | 0, _ => none
  | fuel + 1, s =>
    match skipWs s with
    | [] => none
    | c :: r =>
      if c = ']' then some (.arr [], r)
      else
        match parseValue fuel (c :: r) with
        | some (v, r1) => parseElemsTail fuel [v] r1
        | none => none

/-- After one array element: `]` closes, `,` continues. -/
def parseElemsTail : Nat → List Json → JStr → Option (Json × JStr)
  | 0, _, _ => none
  | fuel + 1, acc, s =>
    match skipWs s with
    | [] => none
    | c :: r =>
      if c = ']' then some (.arr acc, r)
      else if c = ',' then
        match parseValue fuel r with
        | some (v, r1) => parseElemsTail fuel (acc ++ [v]) r1
        | none => none
      else none

/-- After `{`: empty object or first member. -/
def parseMembers : Nat → JStr → Option (Json × JStr)
  | 0, _ => none
  | fuel + 1, s =>
    match skipWs s with
    | [] => none
    | c :: r =>
      if c = '}' then some (.obj [], r)
      else if c = '"' then
        match parseStringBody r with
        | some (k, r1) =>
          (match skipWs r1 with
           | c2 :: r2 =>
             if c2 = ':' then
               match parseValue fuel r2 with
               | some (v, r3) => parseMembersTail fuel [(k, v)] r3
               | none => none
             else none
           | [] => none)
        | none => none
      else none

/-- After one object member: `}` closes, `,` continues with another
`"key": value` pair. -/
def parseMembersTail : Nat → List (JStr × Json) → JStr → Option (Json × JStr)
  | 0, _, _ => none
  | fuel + 1, acc, s =>
    match skipWs s with
    | [] => none
    | c :: r =>
      if c = '}' then some (.obj acc, r)
      else if c = ',' then
        match skipWs r with
        | c2 :: r2 =>
          if c2 = '"' then
            match parseStringBody r2 with
            | some (k, r3) =>
              (match skipWs r3 with
               | c3 :: r4 =>
                 if c3 = ':' then
                   match parseValue fuel r4 with
                   | some (v, r5) => parseMembersTail fuel (acc ++ [(k, v)]) r5
                   | none => none
                 else none
               | [] => none)
            | none => none
          else none
        | [] => none
      else none

end

/-- `JSON.parse`: a complete value with only whitespace around it. -/
def jsonParse (s : JStr) : Option Json :=
  match parseValue (2 * s.length + 2) s with
  | some (v, r) => if (skipWs r).isEmpty then some v else none
  | none => none

/-- Helper function to process JSON content (identical in both backend
variants): parse, pretty-print with 2-space indentation, truncate the
pretty form at 3000 characters, and fall back to the first 2000 raw
characters when parsing fails. -/
def processJSONContent (content : JStr) (filename : JStr) : JStr :=
  match jsonParse content with
  | some parsed =>
    let formatted := jsonStringify2 parsed
    if formatted.length > 3000 then
      str "JSON File: " ++ filename ++ str "\nStructure preview:\n" ++
        formatted.take 3000 ++ str "...\n\n[Content truncated due to size]"
    else str "JSON File: " ++ filename ++ str "\nContent:\n" ++ formatted
  | none =>
    str "JSON File: " ++ filename ++ str "\nRaw content (invalid JSON):\n" ++ content.take 2000

/-! ## Per-file dispatch and the two backend request handlers

`pdf-parse` (Buffer decode plus text extraction) and `mammoth` (Buffer
decode plus raw-text extraction) are external libraries; they are modeled
as abstract extractors passed in as parameters, returning either extracted
text or a thrown error message. -/

/-- `needle.startsWith(p)` style check: `p.startsWith` in JS argument order
is `jsStartsWith prefixStr s`. -/
def jsStartsWith (p s : JStr) : Bool := p.isPrefixOf s

/-- JS `hay.includes(needle)`. -/
def jsIncludes (needle hay : JStr) : Bool := decide (needle <:+: hay)

/-- JS `s.endsWith(p)`. -/
def jsEndsWith (p s : JStr) : Bool := p.isSuffixOf s

/-- JS `s.toLowerCase()` (ASCII range, which covers the extensions the
dispatch compares against). -/
def jsToLower (s : JStr) : JStr := s.map Char.toLower

/-- One uploaded file record `{name, type, content}` as the handlers read
it from a `file_i` form field (`type` is a Lean keyword, hence `ftype`). -/
structure FileObj where
  name : JStr
  ftype : JStr
  content : JStr

/-- The local-variant PDF branch: split out the base64 payload (throwing
`Invalid base64 content for PDF.` when absent or empty), run the extractor,
emit `[No text found]` for falsy extracted text, and turn a thrown error
into a placeholder naming it. -/
def pdfBlockOllama (pdfX : JStr → Except JStr JStr) (f : FileObj) : JStr :=
  match (f.content.splitOn ',')[1]? with
  | none =>
    str "PDF File: " ++ f.name ++ str "\n[Error extracting text from PDF: Invalid base64 content for PDF.]"
  | some [] =>
    str "PDF File: " ++ f.name ++ str "\n[Error extracting text from PDF: Invalid base64 content for PDF.]"
  | some b64 =>
    match pdfX b64 with
    | .ok t => str "PDF File: " ++ f.name ++ str "\n" ++ (if t.isEmpty then str "[No text found]" else t)
    | .error msg => str "PDF File: " ++ f.name ++ str "\n[Error extracting text from PDF: " ++ msg ++ str "]"

/-- The local-variant DOCX branch: the source takes `content.split(',')[1]`
with no falsiness check, so the extractor receives an `Option` (with `none`
for the undefined case, where `Buffer.from` throws inside the same `try`). -/
def docxBlockOllama (docxX : Option JStr → Except JStr JStr) (f : FileObj) : JStr :=
  match docxX (f.content.splitOn ',')[1]? with
  | .ok v => str "DOCX File: " ++ f.name ++ str "\n" ++ v
  | .error msg => str "DOCX File: " ++ f.name ++ str "\n[Error extracting text from DOCX: " ++ msg ++ str "]"

/-- The local-variant per-file dispatch chain (image, CSV, JSON, PDF, DOCX,
plain text), checked against the declared MIME type with the lower-cased
filename extension as fallback. -/
def dispatchOllama (pdfX : JStr → Except JStr JStr) (docxX : Option JStr → Except JStr JStr)
    (f : FileObj) : JStr :=
  if jsStartsWith (str "image/") f.ftype then decodeImageContent f.content
  else if jsIncludes (str "csv") f.ftype || jsEndsWith (str ".csv") (jsToLower f.name) then
    processCSVContent (decodeTextContent f.content f.name) f.name
  else if jsIncludes (str "json") f.ftype || jsEndsWith (str ".json") (jsToLower f.name) then
    processJSONContent (decodeTextContent f.content f.name) f.name
  else if jsIncludes (str "pdf") f.ftype || jsEndsWith (str ".pdf") (jsToLower f.name) then
    pdfBlockOllama pdfX f
  else if jsIncludes (str "wordprocessingml.document") f.ftype
      || jsEndsWith (str ".docx") (jsToLower f.name) then
    docxBlockOllama docxX f
  else decodeTextContent f.content f.name

/-- The cloud-variant per-file dispatch chain: image, CSV and JSON as in the
local variant; PDF (type match only) degrades to a note plus the first 3000
cleaned characters; there is no DOCX branch, so DOCX files fall through to
the plain-text path. -/
def dispatchGemini (f : FileObj) : JStr :=
  if jsStartsWith (str "image/") f.ftype then decodeImageContent f.content
  else if jsIncludes (str "csv") f.ftype || jsEndsWith (str ".csv") (jsToLower f.name) then
    processCSVContent (decodeTextContent f.content f.name) f.name
  else if jsIncludes (str "json") f.ftype || jsEndsWith (str ".json") (jsToLower f.name) then
    processJSONContent (decodeTextContent f.content f.name) f.name
  else if jsIncludes (str "pdf") f.ftype then
    str "PDF File: " ++ f.name ++ str "\n[Note: PDF parsing is limited in this implementation]\n" ++
      (decodeTextContent f.content f.name).take 3000
  else decodeTextContent f.content f.name

/-- Local-variant normalization of one file: dispatch, then the 4000
ceiling. -/
def normalizeOllama (pdfX : JStr → Except JStr JStr) (docxX : Option JStr → Except JStr JStr)
    (f : FileObj) : JStr :=
  clamp4000 (dispatchOllama pdfX docxX f)

/-- Cloud-variant normalization of one file. -/
def normalizeGemini (f : FileObj) : JStr := clamp4000 (dispatchGemini f)

/-- JS truthiness of a nullable string. -/
def jsTruthy (o : Option JStr) : Bool :=
  match o with
  | none => false
  | some s => !s.isEmpty

/-- The local-variant system preamble (verbatim from the source). -/
def ollamaPreamble : JStr := str "You are ScholarAI, a highly capable and ethically aligned AI research assistant. Your primary role is to help users explore, analyze, and understand any topic through research-driven answers, learning support, or analytical insights. You specialize in academic research, self-guided study, and curiosity-based exploration across all fields of knowledge. Engage in a friendly, intelligent, and helpful tone. Avoid repetitively stating your identity or mission unless explicitly asked. Maintain polite boundaries: if a user asks something outside your scope, gently guide the conversation back to meaningful inquiry, study, or educational insight. Do not engage in discussions that are explicitly sexual, harmful, or inappropriate, unless they are part of a legitimate, constructive, and educational context. Always adhere to strict AI safety, research integrity, and ethical communication standards. Your responses should be helpful, accurate, and framed through the lens of inquiry, study, or research—even when the user is casually exploring ideas."

/-- The cloud-variant system preamble (verbatim from the source). -/
def geminiPreamble : JStr := str "You are ScholarAI, an expert AI research assistant. Answer as a helpful, knowledgeable, and friendly research assistant."

/-- Header line announcing the uploaded file count. -/
def filesHeader (n : Nat) : JStr :=
  str "\n\nThe user has uploaded " ++ natRepr n ++
    str " file(s). Please analyze the content and provide insights:"

/-- The labeled section for file number `idx + 1`. -/
def fileSection (idx : Nat) (f : FileObj) (body : JStr) : JStr :=
  str "\n\n--- File " ++ natRepr (idx + 1) ++ str ": " ++ f.name ++ str " (" ++
    f.ftype ++ str ") ---" ++ (str "\n" ++ body)

/-- Closing instruction appended after the file sections. -/
def closingInstr : JStr := str "\n\nPlease provide a comprehensive analysis of the uploaded content. Include summaries, key insights, and answer any questions about the files."

/-- The concatenated file sections, numbering from `i`. -/
def fileSectionsFrom (norm : FileObj → JStr) : Nat → List FileObj → JStr
  | _, [] => []
  | i, f :: t => fileSection i f (norm f) ++ fileSectionsFrom norm (i + 1) t

/-- Prompt assembly shared by both handlers: preamble, optional labeled user
message, then (when files exist) the count header, the per-file sections in
submission order, and the closing instruction. -/
def buildPrompt (preamble : JStr) (message : Option JStr) (files : List FileObj)
    (norm : FileObj → JStr) : JStr :=
  preamble ++
  (if jsTruthy message then str "\n\nUser message: " ++ message.getD [] else []) ++
  (if files.isEmpty then []
   else filesHeader files.length ++ fileSectionsFrom norm 0 files ++ closingInstr)

/-- The multipart form fields of one inbound request. -/
structure ReqModel where
  message : Option JStr
  fileCountField : Option JStr
  fileField : Nat → Option JStr
  modelField : Option JStr

/-- JS `parseInt` on the decimal strings this pipeline sends (`none` is
`NaN`). -/
def jsParseInt (s : JStr) : Option Int :=
  let s1 := s.dropWhile jsIsWs
  let p : Bool × JStr :=
    match s1 with
    | '+' :: t => (false, t)
    | '-' :: t => (true, t)
    | _ => (false, s1)
  match parseDigits p.2 with
  | ([], _) => none
  | (d :: ds, _) => some ((if p.1 then -1 else 1) * (natOfDigits (d :: ds) : Int))

/-- `parseInt(formData.get('fileCount')) || 0`, as the bound of the
file-collection loop: `NaN` becomes 0 and a negative count runs the loop
zero times, which `Int.toNat` captures. -/
def fileCountN (req : ReqModel) : Nat :=
  match req.fileCountField with
  | none => 0
  | some s =>
    match jsParseInt s with
    | none => 0
    | some i => i.toNat

/-- The file-collection loop: for each `i < fileCount`, a present and
JSON-parsable `file_i` field is pushed; absent or unparsable fields are
skipped. -/
def parsedFiles (req : ReqModel) : List Json :=
  (List.range (fileCountN req)).filterMap (fun i => (req.fileField i).bind jsonParse)

/-- JS object field lookup on the parse result (later duplicate keys win,
as in `JSON.parse`). -/
def getField : List (JStr × Json) → JStr → Option Json
  | [], _ => none
  | (k2, v) :: t, k =>
    match getField t k with
    | some v2 => some v2
    | none => if k2 = k then some v else none

def asStr : Option Json → Option JStr
  | some (.str s) => some s
  | _ => none

/-- Read one parsed `file_i` value as a `{name, type, content}` record with
string fields; anything else makes the per-file loop of the source throw
(a `TypeError` on a property of `undefined`), caught by the top-level
handler. -/
def asFileObj (j : Json) : Option FileObj :=
  match j with
  | .obj kvs =>
    match asStr (getField kvs (str "name")), asStr (getField kvs (str "type")),
        asStr (getField kvs (str "content")) with
    | some n, some t, some c => some ⟨n, t, c⟩
    | _, _, _ => none
  | _ => none

/-- The single outbound model-API call, abstracted: HTTP success flag,
status, error text, and the reply field extracted from the response
envelope (`response` for the local variant, first candidate text for the
cloud variant). -/
structure FetchOutcome where
  ok : Bool
  statusCode : Nat
  errText : JStr
  replyField : Option JStr

/-- What a handler returns, plus bookkeeping the claims need: whether the
outbound call was attempted and which prompt was assembled. -/
structure HandlerResult where
  status : Nat
  success : Bool
  error : Option JStr
  response : Option JStr
  filesProcessed : Option Nat
  fetchCalled : Bool
  prompt : Option JStr

/-- `x || ''` on the nullable reply field. -/
def falsyOrEmpty (o : Option JStr) : JStr :=
  match o with
  | none => []
  | some s => s

/-- Stand-in for the engine-specific `TypeError` message produced when a
parsed file field is not a well-formed record; no theorem depends on its
text. -/
def typeErrMsg : JStr := str "TypeError"

/-- The local-variant handler `POST`: collect files, validate, build the
prompt, call the local model API once, and wrap the reply. -/
def ollamaPOST (pdfX : JStr → Except JStr JStr) (docxX : Option JStr → Except JStr JStr)
    (fetch : FetchOutcome) (req : ReqModel) : HandlerResult :=
  let files := parsedFiles req
  if !jsTruthy req.message && files.isEmpty then
    { status := 400, success := false, error := some (str "No message or files provided"),
      response := none, filesProcessed := none, fetchCalled := false, prompt := none }
  else
    match files.mapM asFileObj with
    | none =>
      { status := 500, success := false,
        error := some (str "Unexpected error: " ++ typeErrMsg),
        response := none, filesProcessed := none, fetchCalled := false, prompt := none }
    | some fobjs =>
      let prompt := buildPrompt ollamaPreamble req.message fobjs (normalizeOllama pdfX docxX)
      if !fetch.ok then
        { status := 500, success := false,
          error := some (str "Ollama API error: " ++ natRepr fetch.statusCode ++ str " - " ++ fetch.errText),
          response := none, filesProcessed := none, fetchCalled := true, prompt := some prompt }
      else
        { status := 200, success := true, error := none,
          response := some (falsyOrEmpty fetch.replyField),
          filesProcessed := some fobjs.length, fetchCalled := true, prompt := some prompt }

/-- The cloud-variant handler `POST`: same shape, plus the API-key guard
between input validation and prompt assembly. -/
def geminiPOST (apiKey : Option JStr) (fetch : FetchOutcome) (req : ReqModel) : HandlerResult :=
  let files := parsedFiles req
  if !jsTruthy req.message && files.isEmpty then
    { status := 400, success := false, error := some (str "No message or files provided"),
      response := none, filesProcessed := none, fetchCalled := false, prompt := none }
  else if !jsTruthy apiKey then
    { status := 500, success := false, error := some (str "Gemini API key not set."),
      response := none, filesProcessed := none, fetchCalled := false, prompt := none }
  else
    match files.mapM asFileObj with
    | none =>
      { status := 500, success := false,
        error := some (str "Unexpected error: " ++ typeErrMsg),
        response := none, filesProcessed := none, fetchCalled := false, prompt := none }
    | some fobjs =>
      let prompt := buildPrompt geminiPreamble req.message fobjs normalizeGemini
      if !fetch.ok then
        { status := 500, success := false,
          error := some (str "Gemini API error: " ++ natRepr fetch.statusCode ++ str " - " ++ fetch.errText),
          response := none, filesProcessed := none, fetchCalled := true, prompt := some prompt }
      else
        { status := 200, success := true, error := none,
          response := some (falsyOrEmpty fetch.replyField),
          filesProcessed := some fobjs.length, fetchCalled := true, prompt := some prompt }

/-! ## The client submission step (`handleAsk` in `src/app/page.tsx`) -/

/-- One client-held pending file. -/
structure UFile where
  id : JStr
  name : JStr
  size : Nat
  ftype : JStr
  content : JStr

inductive Sender where
  | user
  | system
  | ai

structure ChatMsg where
  sender : Sender
  text : JStr
  files : Option (List UFile)

/-- The client state touched by `handleAsk`. -/
structure ClientState where
  message : JStr
  uploadedFiles : List UFile
  chat : List ChatMsg
  loading : Bool
  error : Option JStr

/-- How the awaited submission resolves, covering every path of the
`try` block: the fetch or body read rejecting, a non-JSON content type,
or a JSON body with the response status and parsed fields. -/
inductive SubmitOutcome where
  | netErr (msg : JStr)
  | nonJson (status : Nat)
  | jsonResp (ok : Bool) (status : Nat) (success : Bool)
      (response : Option JStr) (error : Option JStr)

def sorryMsg : JStr := str "Sorry, I could not process your request."

/-- One chat turn of the client: early-return when there is nothing to
send; otherwise append the user message, run the submission, and in the
`finally` clear `loading` and the pending-file list. -/
def handleAsk (s : ClientState) (out : SubmitOutcome) : ClientState :=
  let userMessage := jsTrim s.message
  if userMessage.isEmpty && s.uploadedFiles.isEmpty then s
  else
    let userText := if userMessage.isEmpty then str "File analysis request" else userMessage
    let ufiles := if s.uploadedFiles.isEmpty then none else some s.uploadedFiles
    let s1 : ClientState :=
      { message := [], uploadedFiles := s.uploadedFiles,
        chat := s.chat ++ [{ sender := .user, text := userText, files := ufiles }],
        loading := true, error := none }
    let s2 : ClientState :=
      match out with
      | .netErr msg =>
        { s1 with
          error := some (if msg.isEmpty then str "An unexpected error occurred" else msg),
          chat := s1.chat ++ [{ sender := .ai, text := sorryMsg, files := none }] }
      | .nonJson status =>
        { s1 with
          error := some (str "Server returned HTML instead of JSON. Status: " ++ natRepr status),
          chat := s1.chat ++ [{ sender := .ai, text := sorryMsg, files := none }] }
      | .jsonResp ok status success response error =>
        if !ok then
          { s1 with
            error := some (match error with
              | some e => if e.isEmpty then str "Server error: " ++ natRepr status else e
              | none => str "Server error: " ++ natRepr status),
            chat := s1.chat ++ [{ sender := .ai, text := sorryMsg, files := none }] }
        else if success && jsTruthy response then
          { s1 with chat := s1.chat ++ [{ sender := .ai, text := response.getD [], files := none }] }
        else
          { s1 with
            error := some (str "Invalid response format from server"),
            chat := s1.chat ++ [{ sender := .ai, text := sorryMsg, files := none }] }
    { s2 with loading := false, uploadedFiles := [] }

/-! ## Auxiliary notions for the parser-printer correspondence -/

mutual

/-- Fuel bound for parsing one printed value. -/
def sz : Json → Nat
  | .null => 1
  | .bool _ => 1
  | .num _ _ => 1
  | .inf _ => 1
  | .str _ => 1
  | .arr xs => 2 + szItems xs
  | .obj kvs => 2 + szFields kvs

/-- Fuel bound for parsing a printed element-line suffix. -/
def szItems : List Json → Nat
  | [] => 1
  | x :: t => 1 + sz x + szItems t

/-- Fuel bound for parsing a printed member-line suffix. -/
def szFields : List (JStr × Json) → Nat
  | [] => 1
  | (_, v) :: t => 1 + sz v + szFields t

end

mutual

/-- Every number in the value is a finite double: no `inf` anywhere and no
mantissa/exponent pair beyond the double-overflow threshold.  `JSON.parse`
only produces such numbers from tokens below the threshold, and printing
followed by re-parsing is the identity exactly on these values — a
non-finite number prints as `null`, which re-parses to the null value. -/
def jfinite : Json → Bool
  | .null => true
  | .bool _ => true
  | .num m e => !dblOverflow m e
  | .inf _ => false
  | .str _ => true
  | .arr xs => jfiniteItems xs
  | .obj kvs => jfiniteFields kvs

/-- `jfinite` on every element of a list. -/
def jfiniteItems : List Json → Bool
  | [] => true
  | x :: t => jfinite x && jfiniteItems t

/-- `jfinite` on every member value of a field list. -/
def jfiniteFields : List (JStr × Json) → Bool
  | [] => true
  | (_, v) :: t => jfinite v && jfiniteFields t

end

/-- The element lines after the first element: empty, or a comma and the
remaining lines. -/
def ppItemsSep (ind : Nat) (t : List Json) : JStr :=
  match t with
  | [] => []
  | _ :: _ => ',' :: ppItems ind t

/-- The member lines after the first member. -/
def ppFieldsSep (ind : Nat) (t : List (JStr × Json)) : JStr :=
  match t with
  | [] => []
  | _ :: _ => ',' :: ppFields ind t

/-- The characters that may continue a number token. -/
def numCont (c : Char) : Bool := isDigitCh c || c = '.' || c = 'e' || c = 'E'

/-- A suffix safe to place after a printed number token: it does not start
with a character that would be absorbed into the token. -/
def numStop (rest : JStr) : Prop :=
  match rest with
  | [] => True
  | c :: _ => numCont c = false

/-- A suffix that does not start with a digit, so a digit run stops at it. -/
def notDigitStart (r : JStr) : Prop :=
  match r with
  | [] => True
  | c :: _ => isDigitCh c = false

/-! ## Concrete inputs used by witnesses and counterexamples -/

/-- A 21-line CSV input. -/
def csvW : JStr := str "r1\nr2\nr3\nr4\nr5\nr6\nr7\nr8\nr9\nr10\nr11\nr12\nr13\nr14\nr15\nr16\nr17\nr18\nr19\nr20\nr21"

/-- A request with no fields at all. -/
def emptyReq : ReqModel :=
  { message := none, fileCountField := none, fileField := fun _ => none, modelField := none }

/-- A fetch outcome that would succeed if it were reached. -/
def fetchOK : FetchOutcome :=
  { ok := true, statusCode := 200, errText := [], replyField := some (str "ok") }

/-- A PDF extractor that always fails. -/
def pdfX0 : JStr → Except JStr JStr := fun _ => .error (str "bad pdf")

/-- A DOCX extractor that always fails. -/
def docxX0 : Option JStr → Except JStr JStr := fun _ => .error (str "bad docx")

/-- A request carrying only a message. -/
def msgReq : ReqModel :=
  { message := some (str "hello"), fileCountField := none,
    fileField := fun _ => none, modelField := none }

/-- 4001 characters of plain text. -/
def bigText : JStr := List.replicate 4001 'a'

/-- A plain-text file whose cleaned content is 4001 characters long. -/
def bigTextFile : FileObj :=
  { name := str "a.txt", ftype := str "text/plain", content := bigText }

/-- A short plain-text file. -/
def smallTextFile : FileObj :=
  { name := str "b.txt", ftype := str "text/plain", content := str "hi" }

/-- The fixed-format image placeholder reporting a payload length. -/
def imagePlaceholder (n : Nat) : JStr :=
  str "[Image file detected - Base64 encoded image with " ++ natRepr n ++
    str " characters of data]"

/-- An image file whose payload has 100 characters. -/
def imgFile : FileObj :=
  { name := str "p.png", ftype := str "image/png",
    content := str "data:image/png;base64," ++ List.replicate 100 'Q' }

/-- A DOCX-typed upload whose content is plain text. -/
def docxFile : FileObj :=
  { name := str "r.docx",
    ftype := str "application/vnd.openxmlformats-officedocument.wordprocessingml.document",
    content := str "hello" }

/-- A DOCX extractor that succeeds with fixed text. -/
def docxXok : Option JStr → Except JStr JStr := fun _ => .ok (str "words")

/-- A PDF-typed file whose content has no data-URL comma. -/
def pdfFileNoComma : FileObj :=
  { name := str "p.pdf", ftype := str "application/pdf", content := str "x" }

/-- A PDF-typed file with a payload after the comma. -/
def pdfFileComma : FileObj :=
  { name := str "q.pdf", ftype := str "application/pdf", content := str "data:application/pdf;base64,QUJD" }

/-- A request declaring one file that parses to a well-formed record. -/
def fileReq : ReqModel :=
  { message := none, fileCountField := some (str "1"),
    fileField := fun i => if i = 0 then
      some (str "\x7b\"name\": \"a.pdf\", \"type\": \"application/pdf\", \"content\": \"x\"\x7d")
      else none,
    modelField := none }

/-- Nulling one request file field. -/
def dropField (req : ReqModel) (j : Nat) : ReqModel :=
  { req with fileField := fun i => if i = j then none else req.fileField i }

/-- A request declaring two files of which only the first parses. -/
def mixedReq : ReqModel :=
  { message := none, fileCountField := some (str "2"),
    fileField := fun i =>
      if i = 0 then
        some (str "\x7b\"name\": \"a.txt\", \"type\": \"text/plain\", \"content\": \"hi\"\x7d")
      else if i = 1 then some (str "\x7boops") else none,
    modelField := none }

/-- A request whose single declared file field does not parse. -/
def badDropReq : ReqModel :=
  { message := none, fileCountField := some (str "1"),
    fileField := fun i => if i = 0 then some (str "\x7boops") else none,
    modelField := none }

/-- A small valid JSON input. -/
def smallJson : JStr := str "\x7b\"a\": [1, true, null]\x7d"

/-- Its parse result. -/
def smallJsonVal : Json := .obj [(str "a", .arr [.num 1 0, .bool true, .null])]

/-- A JSON string value whose pretty print has 3003 characters. -/
def bigJsonVal : Json := .str (List.replicate 3001 'a')

/-- Valid JSON text whose pretty-printed form exceeds 3000 characters. -/
def bigJsonContent : JStr := jsonStringify2 bigJsonVal

/-! ## Theorems -/

theorem natReprAux_congr : ∀ f1 f2 n, n ≤ f1 → n ≤ f2 →
    natReprAux n f1 = natReprAux n f2 := by
  intro f1
  induction f1 using Nat.strong_induction_on with
  | _ f1 ih =>
    intro f2 n h1 h2
    match f1, f2 with
    | 0, 0 => rfl
    | 0, g2 + 1 =>
      have : n = 0 := Nat.le_zero.mp h1
      simp [this, natReprAux]
    | g1 + 1, 0 =>
      have : n = 0 := Nat.le_zero.mp h2
      simp [this, natReprAux]
    | g1 + 1, g2 + 1 =>
      by_cases hn : n < 10
      · simp [natReprAux, hn]
      · have hd : n / 10 < n := Nat.div_lt_self (by omega) (by omega)
        simp only [natReprAux, if_neg hn]
        rw [ih g1 (by omega) g2 (n / 10) (by omega) (by omega)]

/-- The recursion equation for `natRepr`. -/
theorem natRepr_eq (n : Nat) :
    natRepr n = if n < 10 then [digitChar n]
      else natRepr (n / 10) ++ [digitChar (n % 10)] := by
  by_cases hn : n < 10
  · match n, hn with
    | 0, _ => simp [natRepr, natReprAux]
    | m + 1, h => simp [natRepr, natReprAux, h]
  · have h10 : 10 ≤ n := by omega
    match n, h10 with
    | m + 1, _ =>
      simp only [natRepr, natReprAux, if_neg hn]
      rw [natReprAux_congr m ((m + 1) / 10) ((m + 1) / 10)
        (by omega) (le_refl _)]


/-! ### Claim C4: CSV normalization with more than 20 non-blank lines -/

/-- Claim C4: on a CSV-dispatched input with strictly more than 20 non-blank
lines, CSV normalization keeps exactly the first 20 non-blank lines as the
preview, reports the true total row count, and appends a more-rows suffix
whose count is the total minus 20. -/
theorem csv_over20_preview_and_counts (content filename : JStr)
    (h : 20 < (csvLines content).length) :
    processCSVContent content filename =
      str "CSV File: " ++ filename ++ str "\nRows: " ++
        natRepr (csvLines content).length ++ str "\nFirst 20 rows:\n" ++
        List.intercalate (str "\n") ((csvLines content).take 20) ++
        str "\n\n... and " ++ natRepr ((csvLines content).length - 20) ++
        str " more rows" := by
  have hne : (csvLines content).isEmpty = false := by
    cases hl : csvLines content with
    | nil => rw [hl] at h; simp at h
    | cons a t => rfl
  unfold processCSVContent
  simp only [hne, Bool.false_eq_true, if_false, h, if_true, List.append_assoc]

theorem csv_over20_preview_and_counts_witness :
    20 < (csvLines csvW).length ∧
    processCSVContent csvW (str "f.csv") =
      str "CSV File: " ++ str "f.csv" ++ str "\nRows: " ++
        natRepr (csvLines csvW).length ++ str "\nFirst 20 rows:\n" ++
        List.intercalate (str "\n") ((csvLines csvW).take 20) ++
        str "\n\n... and " ++ natRepr ((csvLines csvW).length - 20) ++
        str " more rows" :=
  ⟨by decide, csv_over20_preview_and_counts csvW (str "f.csv") (by decide)⟩

/-! ### Claim C5: empty message and no files give HTTP 400 -/

/-- Claim C5: in both backend variants, a request whose message is falsy and
whose parsed file list is empty is rejected with HTTP 400 and
`success:false`, and no outbound model-API call is attempted. -/
theorem empty_request_yields_400 (pdfX : JStr → Except JStr JStr)
    (docxX : Option JStr → Except JStr JStr) (apiKey : Option JStr)
    (fetch : FetchOutcome) (req : ReqModel)
    (hmsg : jsTruthy req.message = false) (hfiles : parsedFiles req = []) :
    (ollamaPOST pdfX docxX fetch req).status = 400 ∧
    (ollamaPOST pdfX docxX fetch req).success = false ∧
    (ollamaPOST pdfX docxX fetch req).fetchCalled = false ∧
    (geminiPOST apiKey fetch req).status = 400 ∧
    (geminiPOST apiKey fetch req).success = false ∧
    (geminiPOST apiKey fetch req).fetchCalled = false := by
  unfold ollamaPOST geminiPOST
  simp [hmsg, hfiles]

theorem empty_request_yields_400_witness :
    jsTruthy emptyReq.message = false ∧ parsedFiles emptyReq = [] ∧
    (ollamaPOST pdfX0 docxX0 fetchOK emptyReq).status = 400 ∧
    (ollamaPOST pdfX0 docxX0 fetchOK emptyReq).success = false ∧
    (ollamaPOST pdfX0 docxX0 fetchOK emptyReq).fetchCalled = false ∧
    (geminiPOST (some (str "k")) fetchOK emptyReq).status = 400 ∧
    (geminiPOST (some (str "k")) fetchOK emptyReq).success = false ∧
    (geminiPOST (some (str "k")) fetchOK emptyReq).fetchCalled = false := by
  refine ⟨by rfl, by rfl, ?_⟩
  have h := empty_request_yields_400 pdfX0 docxX0 (some (str "k")) fetchOK emptyReq
    (by rfl) (by rfl)
  exact ⟨h.1, h.2.1, h.2.2.1, h.2.2.2.1, h.2.2.2.2.1, h.2.2.2.2.2⟩

/-! ### Claim C6: cloud adapter without an API key gives HTTP 500 -/

/-- Claim C6: a cloud-variant request that passes input validation while no
API key is configured is answered with HTTP 500, `success:false` and an
error naming the missing key, and the model API is never called. -/
theorem gemini_missing_key_yields_500 (apiKey : Option JStr) (fetch : FetchOutcome)
    (req : ReqModel)
    (hval : jsTruthy req.message = true ∨ parsedFiles req ≠ [])
    (hkey : jsTruthy apiKey = false) :
    (geminiPOST apiKey fetch req).status = 500 ∧
    (geminiPOST apiKey fetch req).success = false ∧
    (geminiPOST apiKey fetch req).error = some (str "Gemini API key not set.") ∧
    (geminiPOST apiKey fetch req).fetchCalled = false := by
  have hcond : (!jsTruthy req.message && (parsedFiles req).isEmpty) = false := by
    rcases hval with h | h
    · simp [h]
    · have : (parsedFiles req).isEmpty = false := by
        cases hl : parsedFiles req with
        | nil => exact absurd hl h
        | cons a t => rfl
      simp [this]
  unfold geminiPOST
  simp [hcond, hkey]

theorem gemini_missing_key_yields_500_witness :
    jsTruthy msgReq.message = true ∧ jsTruthy (none : Option JStr) = false ∧
    (geminiPOST none fetchOK msgReq).status = 500 ∧
    (geminiPOST none fetchOK msgReq).success = false ∧
    (geminiPOST none fetchOK msgReq).error = some (str "Gemini API key not set.") ∧
    (geminiPOST none fetchOK msgReq).fetchCalled = false := by
  refine ⟨by rfl, by rfl, ?_⟩
  have h := gemini_missing_key_yields_500 none fetchOK msgReq (Or.inl (by rfl)) (by rfl)
  exact ⟨h.1, h.2.1, h.2.2.1, h.2.2.2⟩

/-! ### Claim C9: the client clears its pending files after every submission -/

/-- Claim C9: whatever way the submission resolves (network error, non-JSON
reply, HTTP error, malformed success payload, or success), the client state
after `handleAsk` has an empty pending uploaded-file list. -/
theorem handleAsk_clears_uploadedFiles (s : ClientState) (out : SubmitOutcome) :
    (handleAsk s out).uploadedFiles = [] := by
  unfold handleAsk
  by_cases h : ((jsTrim s.message).isEmpty && s.uploadedFiles.isEmpty) = true
  · have h2 : s.uploadedFiles = [] := by
      have h3 := h
      simp only [Bool.and_eq_true] at h3
      exact List.isEmpty_iff.mp h3.2
    simp only [h, if_true]
    exact h2
  · simp only [Bool.not_eq_true] at h
    simp only [h, Bool.false_eq_true, if_false]

/-! ### Claim C1: the per-file ceiling and its truncation notice -/

theorem truncNotice_length : truncNotice.length = 35 := by decide

theorem clamp4000_of_gt {s : JStr} (h : 4000 < s.length) :
    clamp4000 s = s.take 4000 ++ truncNotice := by
  unfold clamp4000
  simp [h]

theorem clamp4000_of_le {s : JStr} (h : s.length ≤ 4000) : clamp4000 s = s := by
  unfold clamp4000
  simp only [if_neg (by omega : ¬ s.length > 4000)]

theorem clamp4000_length_le (s : JStr) : (clamp4000 s).length ≤ 4035 := by
  by_cases h : 4000 < s.length
  · rw [clamp4000_of_gt h]
    simp only [List.length_append, List.length_take, truncNotice_length]
    omega
  · rw [clamp4000_of_le (by omega)]
    omega

theorem crlfToLf_replicate_a : ∀ n, crlfToLf (List.replicate n 'a') = List.replicate n 'a' := by
  intro n
  induction n using Nat.strong_induction_on with
  | _ n ih =>
    match n with
    | 0 => rfl
    | 1 => rfl
    | m + 2 =>
      rw [List.replicate_succ, List.replicate_succ]
      show (if ('a' = '\r' && 'a' = '\n') = true then '\n' :: crlfToLf (List.replicate m 'a')
        else 'a' :: crlfToLf ('a' :: List.replicate m 'a')) = _
      rw [if_neg (by decide)]
      rw [← List.replicate_succ]
      rw [ih (m + 1) (by omega)]

theorem jsTrim_replicate_a (n : Nat) :
    jsTrim (List.replicate n 'a') = List.replicate n 'a' := by
  unfold jsTrim
  rw [List.dropWhile_replicate, if_neg (by decide), List.reverse_replicate,
    List.dropWhile_replicate, if_neg (by decide), List.reverse_replicate]

theorem decodeText_replicate_a (fn : JStr) (n : Nat) (h : 0 < n) :
    decodeTextContent (List.replicate n 'a') fn = List.replicate n 'a' := by
  have h1 : stripBOM (List.replicate n 'a') = List.replicate n 'a' := by
    match n, h with
    | m + 1, _ =>
      rw [List.replicate_succ]
      show (if 'a' = '\uFEFF' then List.replicate m 'a'
        else 'a' :: List.replicate m 'a') = _
      rw [if_neg (by decide)]
  have h3 : (List.replicate n 'a').isEmpty = false := by
    match n, h with
    | m + 1, _ => rw [List.replicate_succ]; rfl
  have e3 : List.map (fun c => if c = '\r' then '\n' else c) (List.replicate n 'a') =
      List.replicate n 'a' := by
    rw [List.map_replicate]
    rw [if_neg (by decide)]
  have e4 : List.filter (fun c => c != '\x00') (List.replicate n 'a') =
      List.replicate n 'a' := by
    rw [List.filter_replicate, if_pos (by decide)]
  unfold decodeTextContent
  simp only [h1, crlfToLf_replicate_a, e3, e4, jsTrim_replicate_a, h3,
    Bool.false_eq_true, if_false]

theorem dispatchOllama_bigTextFile (pdfX : JStr → Except JStr JStr)
    (docxX : Option JStr → Except JStr JStr) :
    dispatchOllama pdfX docxX bigTextFile = bigText := by
  unfold dispatchOllama
  rw [if_neg (by decide), if_neg (by decide), if_neg (by decide),
    if_neg (by decide), if_neg (by decide)]
  exact decodeText_replicate_a (str "a.txt") 4001 (by omega)

/-- Claim C1 counterexample: for the 4001-character plain-text file, the
final block is the first 4000 characters plus the truncation notice, and its
length is 4035, strictly more than the 4000 the claim allows. -/
theorem c1_counterexample :
    4000 < (normalizeOllama pdfX0 docxX0 bigTextFile).length ∧
    normalizeOllama pdfX0 docxX0 bigTextFile = List.replicate 4000 'a' ++ truncNotice := by
  have hd := dispatchOllama_bigTextFile pdfX0 docxX0
  have hlen : bigText.length = 4001 := by
    unfold bigText
    exact List.length_replicate 4001 'a'
  have heq : normalizeOllama pdfX0 docxX0 bigTextFile = List.replicate 4000 'a' ++ truncNotice := by
    unfold normalizeOllama
    rw [hd, clamp4000_of_gt (by omega)]
    unfold bigText
    rw [List.take_replicate]
    norm_num
  refine ⟨?_, heq⟩
  rw [heq]
  simp only [List.length_append, List.length_replicate, truncNotice_length]
  omega

/-- Claim C1 (amended): every normalized block, in both backend variants, is
at most 4035 characters long (4000 characters of content plus the
35-character truncation notice); when the format-specific output exceeds
4000 characters it is truncated to its first 4000 characters with the notice
appended, and otherwise it is passed through unchanged. -/
theorem normalized_block_le_4035 (pdfX : JStr → Except JStr JStr)
    (docxX : Option JStr → Except JStr JStr) (f : FileObj) :
    (normalizeOllama pdfX docxX f).length ≤ 4035 ∧
    (normalizeGemini f).length ≤ 4035 ∧
    (4000 < (dispatchOllama pdfX docxX f).length →
      normalizeOllama pdfX docxX f = (dispatchOllama pdfX docxX f).take 4000 ++ truncNotice) ∧
    ((dispatchOllama pdfX docxX f).length ≤ 4000 →
      normalizeOllama pdfX docxX f = dispatchOllama pdfX docxX f) ∧
    (4000 < (dispatchGemini f).length →
      normalizeGemini f = (dispatchGemini f).take 4000 ++ truncNotice) ∧
    ((dispatchGemini f).length ≤ 4000 → normalizeGemini f = dispatchGemini f) :=
  ⟨clamp4000_length_le _, clamp4000_length_le _,
    fun h => clamp4000_of_gt h, fun h => clamp4000_of_le h,
    fun h => clamp4000_of_gt h, fun h => clamp4000_of_le h⟩

theorem normalized_block_le_4035_witness :
    (normalizeOllama pdfX0 docxX0 bigTextFile).length ≤ 4035 ∧
    4000 < (dispatchOllama pdfX0 docxX0 bigTextFile).length ∧
    normalizeOllama pdfX0 docxX0 bigTextFile =
      (dispatchOllama pdfX0 docxX0 bigTextFile).take 4000 ++ truncNotice ∧
    (dispatchGemini smallTextFile).length ≤ 4000 ∧
    normalizeGemini smallTextFile = dispatchGemini smallTextFile := by
  have hg : 4000 < (dispatchOllama pdfX0 docxX0 bigTextFile).length := by
    rw [dispatchOllama_bigTextFile]
    unfold bigText
    rw [List.length_replicate]
    omega
  have hle : (dispatchGemini smallTextFile).length ≤ 4000 := by decide
  have h1 := normalized_block_le_4035 pdfX0 docxX0 bigTextFile
  have h2 := normalized_block_le_4035 pdfX0 docxX0 smallTextFile
  exact ⟨h1.1, hg, h1.2.2.1 hg, hle, h2.2.2.2.2.2 hle⟩

/-! ### Claim C8: image files produce a placeholder, never the payload -/

theorem natRepr_length_le (n : Nat) : (natRepr n).length ≤ n / 10 + 1 := by
  induction n using Nat.strong_induction_on with
  | _ n ih =>
    by_cases h : n < 10
    · rw [natRepr_eq]
      simp [h]
    · rw [natRepr_eq]
      simp only [h, if_false, List.length_append, List.length_cons, List.length_nil]
      have hd : n / 10 < n := Nat.div_lt_self (by omega) (by omega)
      have := ih (n / 10) hd
      omega

theorem imagePlaceholder_length (n : Nat) :
    imagePlaceholder n = str "[Image file detected - Base64 encoded image with " ++
      (natRepr n ++ str " characters of data]") ∧
    (imagePlaceholder n).length = 69 + (natRepr n).length := by
  constructor
  · unfold imagePlaceholder
    rw [List.append_assoc]
  · unfold imagePlaceholder
    simp only [List.length_append]
    have h1 : (str "[Image file detected - Base64 encoded image with ").length = 49 := by decide
    have h2 : (str " characters of data]").length = 20 := by decide
    omega

theorem decodeImageContent_of_payload (content payload : JStr)
    (hsplit : (content.splitOn ',')[1]? = some payload) (hne : payload ≠ []) :
    decodeImageContent content = imagePlaceholder payload.length := by
  obtain ⟨c, t, rfl⟩ := List.exists_cons_of_ne_nil hne
  unfold decodeImageContent imagePlaceholder
  rw [hsplit]

/-- Claim C8: in both backend variants, a file whose declared type starts
with `image/` and whose content carries a base64 payload after the data-URL
comma is normalized to the fixed placeholder that contains the phrase
`Base64 encoded image` and reports the payload length; the payload itself
is never part of the block (for any payload of at least 100 characters, the
block is strictly shorter than the payload, so the payload cannot occur in
it), and the image is never decoded pixel-wise. -/
theorem image_block_is_placeholder (pdfX : JStr → Except JStr JStr)
    (docxX : Option JStr → Except JStr JStr) (f : FileObj) (payload : JStr)
    (himg : jsStartsWith (str "image/") f.ftype = true)
    (hsplit : (f.content.splitOn ',')[1]? = some payload) (hne : payload ≠ []) :
    dispatchOllama pdfX docxX f = imagePlaceholder payload.length ∧
    dispatchGemini f = imagePlaceholder payload.length ∧
    str "Base64 encoded image" <:+: imagePlaceholder payload.length ∧
    (payload.length ≤ 39000 →
      normalizeOllama pdfX docxX f = imagePlaceholder payload.length ∧
      normalizeGemini f = imagePlaceholder payload.length) ∧
    (100 ≤ payload.length → ¬ payload <:+: imagePlaceholder payload.length) := by
  have hdec := decodeImageContent_of_payload f.content payload hsplit hne
  have hdisp1 : dispatchOllama pdfX docxX f = imagePlaceholder payload.length := by
    unfold dispatchOllama
    rw [if_pos himg, hdec]
  have hdisp2 : dispatchGemini f = imagePlaceholder payload.length := by
    unfold dispatchGemini
    rw [if_pos himg, hdec]
  have hlen := (imagePlaceholder_length payload.length).2
  have hdig := natRepr_length_le payload.length
  refine ⟨hdisp1, hdisp2, ?_, ?_, ?_⟩
  · rw [(imagePlaceholder_length payload.length).1]
    have hsp : str "[Image file detected - Base64 encoded image with " =
        str "[Image file detected - " ++ (str "Base64 encoded image" ++ str " with ") := by
      decide
    rw [hsp, List.append_assoc]
    exact ⟨str "[Image file detected - ",
      str " with " ++ (natRepr payload.length ++ str " characters of data]"),
      by simp [List.append_assoc]⟩
  · intro hsmall
    have hble : (imagePlaceholder payload.length).length ≤ 4000 := by omega
    constructor
    · unfold normalizeOllama
      rw [hdisp1, clamp4000_of_le hble]
    · unfold normalizeGemini
      rw [hdisp2, clamp4000_of_le hble]
  · intro hbig hinf
    have := List.IsInfix.length_le hinf
    omega

theorem image_block_is_placeholder_witness :
    jsStartsWith (str "image/") imgFile.ftype = true ∧
    (imgFile.content.splitOn ',')[1]? = some (List.replicate 100 'Q') ∧
    dispatchOllama pdfX0 docxX0 imgFile = imagePlaceholder 100 ∧
    dispatchGemini imgFile = imagePlaceholder 100 ∧
    str "Base64 encoded image" <:+: imagePlaceholder 100 ∧
    normalizeOllama pdfX0 docxX0 imgFile = imagePlaceholder 100 ∧
    ¬ (List.replicate 100 'Q') <:+: imagePlaceholder 100 := by
  have hsplit : (imgFile.content.splitOn ',')[1]? = some (List.replicate 100 'Q') := by decide
  have hne : (List.replicate 100 'Q') ≠ ([] : JStr) := by decide
  have h := image_block_is_placeholder pdfX0 docxX0 imgFile (List.replicate 100 'Q')
    (by decide) hsplit hne
  have hlen : (List.replicate 100 'Q').length = 100 := List.length_replicate 100 'Q'
  rw [hlen] at h
  exact ⟨by decide, hsplit, h.1, h.2.1, h.2.2.1, (h.2.2.2.1 (by omega)).1,
    h.2.2.2.2 (by omega)⟩

/-! ### Claim C2: DOCX handling differs between the two backend variants -/

/-- Claim C2 counterexample: in the cloud variant the dispatch chain has no
DOCX branch at all, so a file whose MIME type contains the
`wordprocessingml.document` marker (and is captured by no earlier rule)
falls through to the plain-text path; its block is the cleaned raw content
and carries no document-text-extraction output (every DOCX-extraction block
of this codebase starts with `DOCX File: `). -/
theorem docx_not_extracted_in_cloud_variant :
    jsIncludes (str "wordprocessingml.document") docxFile.ftype = true ∧
    dispatchGemini docxFile = str "hello" ∧
    ¬ (str "DOCX File: " <+: dispatchGemini docxFile) := by
  refine ⟨by decide, by decide, ?_⟩
  intro h
  have : dispatchGemini docxFile = str "hello" := by decide
  rw [this] at h
  exact absurd h (by decide)

/-- Claim C2 (amended): only the local backend variant routes a
DOCX-marked file (one captured by no earlier dispatch rule) to the
document-text-extraction routine, emitting the extracted text or, on
extraction failure, a placeholder naming the error; in the cloud variant
the same file is processed by the plain-text path. -/
theorem docx_extraction_local_variant (pdfX : JStr → Except JStr JStr)
    (docxX : Option JStr → Except JStr JStr) (f : FileObj) (txt msg : JStr)
    (hdocx : jsIncludes (str "wordprocessingml.document") f.ftype = true)
    (h1 : jsStartsWith (str "image/") f.ftype = false)
    (h2 : jsIncludes (str "csv") f.ftype = false)
    (h3 : jsEndsWith (str ".csv") (jsToLower f.name) = false)
    (h4 : jsIncludes (str "json") f.ftype = false)
    (h5 : jsEndsWith (str ".json") (jsToLower f.name) = false)
    (h6 : jsIncludes (str "pdf") f.ftype = false)
    (h7 : jsEndsWith (str ".pdf") (jsToLower f.name) = false) :
    (docxX ((f.content.splitOn ',')[1]?) = .ok txt →
      dispatchOllama pdfX docxX f = str "DOCX File: " ++ f.name ++ str "\n" ++ txt) ∧
    (docxX ((f.content.splitOn ',')[1]?) = .error msg →
      dispatchOllama pdfX docxX f =
        str "DOCX File: " ++ f.name ++ str "\n[Error extracting text from DOCX: " ++
          msg ++ str "]") ∧
    dispatchGemini f = decodeTextContent f.content f.name := by
  have ho : dispatchOllama pdfX docxX f = docxBlockOllama docxX f := by
    unfold dispatchOllama
    simp only [h1, h2, h3, h4, h5, h6, h7, hdocx, Bool.or_self, Bool.true_or,
      Bool.false_eq_true, if_false, if_true]
  have hg : dispatchGemini f = decodeTextContent f.content f.name := by
    unfold dispatchGemini
    simp only [h1, h2, h3, h4, h5, h6, Bool.or_self, Bool.false_eq_true, if_false]
  refine ⟨?_, ?_, hg⟩
  · intro hx
    rw [ho]
    unfold docxBlockOllama
    rw [hx]
  · intro hx
    rw [ho]
    unfold docxBlockOllama
    rw [hx]

theorem docx_extraction_local_variant_witness :
    docxXok ((docxFile.content.splitOn ',')[1]?) = .ok (str "words") ∧
    dispatchOllama pdfX0 docxXok docxFile =
      str "DOCX File: " ++ str "r.docx" ++ str "\n" ++ str "words" ∧
    docxX0 ((docxFile.content.splitOn ',')[1]?) = .error (str "bad docx") ∧
    dispatchOllama pdfX0 docxX0 docxFile =
      str "DOCX File: " ++ str "r.docx" ++
        str "\n[Error extracting text from DOCX: " ++ str "bad docx" ++ str "]" ∧
    dispatchGemini docxFile = decodeTextContent docxFile.content docxFile.name := by
  have hok := docx_extraction_local_variant pdfX0 docxXok docxFile (str "words") (str "x")
    (by decide) (by decide) (by decide) (by decide) (by decide) (by decide)
    (by decide) (by decide)
  have herr := docx_extraction_local_variant pdfX0 docxX0 docxFile (str "x") (str "bad docx")
    (by decide) (by decide) (by decide) (by decide) (by decide) (by decide)
    (by decide) (by decide)
  exact ⟨rfl, hok.1 rfl, rfl, herr.2.1 rfl, herr.2.2⟩

/-! ### Claim C7: extraction failures degrade to placeholders and the
request proceeds -/

/-- Claim C7: per-file normalization is total, and every failure path
yields a descriptive placeholder embedding the error message where one
exists: a PDF payload missing after the data-URL comma names the thrown
`Invalid base64 content for PDF.` error, a failing PDF or DOCX extractor
has its message embedded, invalid JSON falls back to labeled raw content,
an undecodable image payload becomes a fixed placeholder; and a request
whose files all parse keeps succeeding no matter what the extractors do. -/
theorem extraction_failures_degrade_to_placeholders
    (pdfX : JStr → Except JStr JStr) (docxX : Option JStr → Except JStr JStr)
    (fetch : FetchOutcome) (req : ReqModel) (fobjs : List FileObj) :
    (∀ f : FileObj, (f.content.splitOn ',')[1]? = none →
      pdfBlockOllama pdfX f =
        str "PDF File: " ++ f.name ++
          str "\n[Error extracting text from PDF: Invalid base64 content for PDF.]") ∧
    (∀ (f : FileObj) (payload m : JStr), (f.content.splitOn ',')[1]? = some payload →
      payload ≠ [] → pdfX payload = .error m →
      pdfBlockOllama pdfX f =
        str "PDF File: " ++ f.name ++ str "\n[Error extracting text from PDF: " ++
          m ++ str "]") ∧
    (∀ (f : FileObj) (m : JStr), docxX ((f.content.splitOn ',')[1]?) = .error m →
      docxBlockOllama docxX f =
        str "DOCX File: " ++ f.name ++ str "\n[Error extracting text from DOCX: " ++
          m ++ str "]") ∧
    (∀ content fn : JStr, jsonParse content = none →
      processJSONContent content fn =
        str "JSON File: " ++ fn ++ str "\nRaw content (invalid JSON):\n" ++
          content.take 2000) ∧
    (∀ content : JStr, (content.splitOn ',')[1]? = none →
      decodeImageContent content = str "[Image content could not be decoded]") ∧
    ((jsTruthy req.message = true ∨ parsedFiles req ≠ []) →
      (parsedFiles req).mapM asFileObj = some fobjs →
      fetch.ok = true →
      (ollamaPOST pdfX docxX fetch req).status = 200 ∧
      (ollamaPOST pdfX docxX fetch req).success = true) := by
  refine ⟨?_, ?_, ?_, ?_, ?_, ?_⟩
  · intro f hsplit
    unfold pdfBlockOllama
    rw [hsplit]
  · intro f payload m hsplit hne hx
    obtain ⟨c, t, rfl⟩ := List.exists_cons_of_ne_nil hne
    unfold pdfBlockOllama
    rw [hsplit]
    simp only [hx]
  · intro f m hx
    unfold docxBlockOllama
    rw [hx]
  · intro content fn hparse
    unfold processJSONContent
    rw [hparse]
  · intro content hsplit
    unfold decodeImageContent
    rw [hsplit]
  · intro hval hmap hok
    have hcond : (!jsTruthy req.message && (parsedFiles req).isEmpty) = false := by
      rcases hval with h | h
      · simp [h]
      · have : (parsedFiles req).isEmpty = false := by
          cases hl : parsedFiles req with
          | nil => exact absurd hl h
          | cons a t => rfl
        simp [this]
    unfold ollamaPOST
    simp only [hcond, Bool.false_eq_true, if_false, hmap, hok,
      Bool.not_true, if_true]
    trivial

theorem extraction_failures_degrade_to_placeholders_witness :
    pdfBlockOllama pdfX0 pdfFileNoComma =
      str "PDF File: " ++ pdfFileNoComma.name ++
        str "\n[Error extracting text from PDF: Invalid base64 content for PDF.]" ∧
    pdfBlockOllama pdfX0 pdfFileComma =
      str "PDF File: " ++ pdfFileComma.name ++
        str "\n[Error extracting text from PDF: " ++ str "bad pdf" ++ str "]" ∧
    docxBlockOllama docxX0 docxFile =
      str "DOCX File: " ++ docxFile.name ++
        str "\n[Error extracting text from DOCX: " ++ str "bad docx" ++ str "]" ∧
    processJSONContent (str "\x7boops") (str "j.json") =
      str "JSON File: " ++ str "j.json" ++ str "\nRaw content (invalid JSON):\n" ++
        (str "\x7boops").take 2000 ∧
    decodeImageContent (str "nocomma") = str "[Image content could not be decoded]" ∧
    (ollamaPOST pdfX0 docxX0 fetchOK fileReq).status = 200 ∧
    (ollamaPOST pdfX0 docxX0 fetchOK fileReq).success = true := by
  have hne : parsedFiles fileReq ≠ [] := by
    have h1 : parsedFiles fileReq =
        [Json.obj [(str "name", Json.str (str "a.pdf")),
          (str "type", Json.str (str "application/pdf")),
          (str "content", Json.str (str "x"))]] := by rfl
    rw [h1]
    exact List.cons_ne_nil _ _
  have hmap : (parsedFiles fileReq).mapM asFileObj =
      some [{ name := str "a.pdf", ftype := str "application/pdf", content := str "x" }] := by
    rfl
  have h := extraction_failures_degrade_to_placeholders pdfX0 docxX0 fetchOK fileReq
    [{ name := str "a.pdf", ftype := str "application/pdf", content := str "x" }]
  have h6 := h.2.2.2.2.2 (Or.inr hne) hmap rfl
  exact ⟨h.1 pdfFileNoComma (by decide),
    h.2.1 pdfFileComma (str "QUJD") (str "bad pdf") (by decide) (by decide) rfl,
    h.2.2.1 docxFile (str "bad docx") rfl,
    h.2.2.2.1 (str "\x7boops") (str "j.json") (by rfl),
    h.2.2.2.2.1 (str "nocomma") (by decide),
    h6.1, h6.2⟩

/-! ### Claim C10: absent or unparsable file fields are silently skipped -/

/-- The local handler reads the request only through its message and its
parsed file list. -/
theorem ollamaPOST_congr (pdfX : JStr → Except JStr JStr)
    (docxX : Option JStr → Except JStr JStr) (fetch : FetchOutcome)
    {r1 r2 : ReqModel} (hm : r1.message = r2.message)
    (hp : parsedFiles r1 = parsedFiles r2) :
    ollamaPOST pdfX docxX fetch r1 = ollamaPOST pdfX docxX fetch r2 := by
  unfold ollamaPOST
  rw [hm, hp]

/-- The cloud handler reads the request only through its message and its
parsed file list. -/
theorem geminiPOST_congr (apiKey : Option JStr) (fetch : FetchOutcome)
    {r1 r2 : ReqModel} (hm : r1.message = r2.message)
    (hp : parsedFiles r1 = parsedFiles r2) :
    geminiPOST apiKey fetch r1 = geminiPOST apiKey fetch r2 := by
  unfold geminiPOST
  rw [hm, hp]

theorem length_of_mapM_eq_some {α β : Type} (f : α → Option β) :
    ∀ (l : List α) (l2 : List β), l.mapM f = some l2 → l2.length = l.length := by
  intro l
  induction l with
  | nil =>
    intro l2 h
    rw [List.mapM_nil] at h
    cases h
    rfl
  | cons a t ih =>
    intro l2 h
    rw [List.mapM_cons] at h
    simp only [Option.pure_def, Option.bind_eq_bind, Option.bind_eq_some] at h
    obtain ⟨b, hb, bs, hbs, hl2⟩ := h
    injection hl2 with hl2
    rw [← hl2]
    simp only [List.length_cons, ih bs hbs]

/-- Claim C10: in both backend handlers a `file_i` form field that is absent
or not valid JSON is silently skipped — the whole handler result is the
same as if the field were absent; on a success response `filesProcessed`
is the number of successfully parsed file fields (which can be less than
the declared `fileCount`); and when every field is dropped and the message
is empty, the request is rejected with HTTP 400. -/
theorem unparsable_file_fields_are_skipped (pdfX : JStr → Except JStr JStr)
    (docxX : Option JStr → Except JStr JStr) (apiKey : Option JStr)
    (fetch : FetchOutcome) (req : ReqModel) (j : Nat) (fobjs : List FileObj) :
    ((req.fileField j).bind jsonParse = none →
      ollamaPOST pdfX docxX fetch req = ollamaPOST pdfX docxX fetch (dropField req j) ∧
      geminiPOST apiKey fetch req = geminiPOST apiKey fetch (dropField req j)) ∧
    ((jsTruthy req.message = true ∨ parsedFiles req ≠ []) →
      (parsedFiles req).mapM asFileObj = some fobjs →
      fetch.ok = true →
      (ollamaPOST pdfX docxX fetch req).filesProcessed = some (parsedFiles req).length ∧
      (jsTruthy apiKey = true →
        (geminiPOST apiKey fetch req).filesProcessed = some (parsedFiles req).length)) ∧
    (jsTruthy req.message = false → parsedFiles req = [] →
      (ollamaPOST pdfX docxX fetch req).status = 400 ∧
      (geminiPOST apiKey fetch req).status = 400) := by
  refine ⟨?_, ?_, ?_⟩
  · intro hj
    have hp : parsedFiles req = parsedFiles (dropField req j) := by
      unfold parsedFiles
      have hc : fileCountN (dropField req j) = fileCountN req := rfl
      rw [hc]
      apply List.filterMap_congr
      intro i _
      show (req.fileField i).bind jsonParse =
        ((if i = j then none else req.fileField i) : Option JStr).bind jsonParse
      by_cases hij : i = j
      · rw [if_pos hij, hij, hj]
        rfl
      · rw [if_neg hij]
    exact ⟨ollamaPOST_congr pdfX docxX fetch rfl hp, geminiPOST_congr apiKey fetch rfl hp⟩
  · intro hval hmap hok
    have hcond : (!jsTruthy req.message && (parsedFiles req).isEmpty) = false := by
      rcases hval with h | h
      · simp [h]
      · have : (parsedFiles req).isEmpty = false := by
          cases hl : parsedFiles req with
          | nil => exact absurd hl h
          | cons a t => rfl
        simp [this]
    have hlen := length_of_mapM_eq_some asFileObj (parsedFiles req) fobjs hmap
    constructor
    · unfold ollamaPOST
      simp only [hcond, Bool.false_eq_true, if_false, hmap, hok, Bool.not_true, if_true]
      rw [hlen]
    · intro hkey
      unfold geminiPOST
      simp only [hcond, Bool.false_eq_true, if_false, hkey, hmap, hok,
        Bool.not_true, if_true]
      rw [hlen]
  · intro hmsg hfiles
    unfold ollamaPOST geminiPOST
    simp [hmsg, hfiles]

theorem unparsable_file_fields_are_skipped_witness :
    (mixedReq.fileField 1).bind jsonParse = none ∧
    ollamaPOST pdfX0 docxX0 fetchOK mixedReq =
      ollamaPOST pdfX0 docxX0 fetchOK (dropField mixedReq 1) ∧
    geminiPOST (some (str "k")) fetchOK mixedReq =
      geminiPOST (some (str "k")) fetchOK (dropField mixedReq 1) ∧
    (ollamaPOST pdfX0 docxX0 fetchOK mixedReq).filesProcessed = some 1 ∧
    (geminiPOST (some (str "k")) fetchOK mixedReq).filesProcessed = some 1 ∧
    fileCountN mixedReq = 2 ∧
    jsTruthy badDropReq.message = false ∧ parsedFiles badDropReq = [] ∧
    (ollamaPOST pdfX0 docxX0 fetchOK badDropReq).status = 400 ∧
    (geminiPOST (some (str "k")) fetchOK badDropReq).status = 400 := by
  have hj : (mixedReq.fileField 1).bind jsonParse = none := by rfl
  have hone : parsedFiles mixedReq =
      [Json.obj [(str "name", Json.str (str "a.txt")),
        (str "type", Json.str (str "text/plain")),
        (str "content", Json.str (str "hi"))]] := by rfl
  have hne : parsedFiles mixedReq ≠ [] := by
    rw [hone]
    exact List.cons_ne_nil _ _
  have hmap : (parsedFiles mixedReq).mapM asFileObj =
      some [{ name := str "a.txt", ftype := str "text/plain", content := str "hi" }] := by rfl
  have h := unparsable_file_fields_are_skipped pdfX0 docxX0 (some (str "k")) fetchOK mixedReq 1
    [{ name := str "a.txt", ftype := str "text/plain", content := str "hi" }]
  have h1 := h.1 hj
  have h2 := h.2.1 (Or.inr hne) hmap rfl
  have hlen1 : (parsedFiles mixedReq).length = 1 := by
    rw [hone]
    rfl
  have hb := unparsable_file_fields_are_skipped pdfX0 docxX0 (some (str "k")) fetchOK badDropReq 0
    []
  have h3 := hb.2.2 (by rfl) (by rfl)
  refine ⟨hj, h1.1, h1.2, ?_, ?_, by rfl, by rfl, by rfl, h3.1, h3.2⟩
  · rw [h2.1, hlen1]
  · rw [h2.2 (by rfl), hlen1]

/-! ### Whitespace, digit and decimal-rendering lemmas -/

theorem skipWs_not_ws {c : Char} (t : JStr) (h : isWsJson c = false) :
    skipWs (c :: t) = c :: t := by
  show (if isWsJson c = true then skipWs t else c :: t) = c :: t
  rw [if_neg (by rw [h]; exact Bool.false_ne_true)]

theorem skipWs_cons_ws {c : Char} (t : JStr) (h : isWsJson c = true) :
    skipWs (c :: t) = skipWs t := by
  show (if isWsJson c = true then skipWs t else c :: t) = skipWs t
  rw [if_pos h]

theorem skipWs_spaces (k : Nat) (l : JStr) : skipWs (spacesJ k ++ l) = skipWs l := by
  induction k with
  | zero => rfl
  | succ n ih =>
    unfold spacesJ
    rw [List.replicate_succ, List.cons_append]
    rw [skipWs_cons_ws _ (by decide)]
    exact ih

theorem skipWs_nl_spaces (k : Nat) (l : JStr) :
    skipWs ('\n' :: (spacesJ k ++ l)) = skipWs l := by
  rw [skipWs_cons_ws _ (by decide)]
  exact skipWs_spaces k l

theorem digitChar_facts (d : Nat) (h : d < 10) :
    isDigitCh (digitChar d) = true ∧ digitVal (digitChar d) = d := by
  interval_cases d <;> exact ⟨by decide, by decide⟩

theorem isDigitCh_not_special {c : Char} (h : isDigitCh c = true) :
    c ≠ '-' ∧ c ≠ '.' ∧ c ≠ 'e' ∧ c ≠ 'E' ∧ c ≠ '+' ∧ isWsJson c = false ∧
    c ≠ ']' ∧ c ≠ '}' ∧ c ≠ ',' ∧ c ≠ 'n' ∧ c ≠ 't' ∧ c ≠ 'f' ∧ c ≠ '"' ∧
    c ≠ '[' ∧ c ≠ '{' := by
  have w1 : c ≠ ' ' := fun hc => by rw [hc] at h; exact absurd h (by decide)
  have w2 : c ≠ '\t' := fun hc => by rw [hc] at h; exact absurd h (by decide)
  have w3 : c ≠ '\n' := fun hc => by rw [hc] at h; exact absurd h (by decide)
  have w4 : c ≠ '\r' := fun hc => by rw [hc] at h; exact absurd h (by decide)
  have w5 : c ≠ '\x0b' := fun hc => by rw [hc] at h; exact absurd h (by decide)
  have w6 : c ≠ '\x0c' := fun hc => by rw [hc] at h; exact absurd h (by decide)
  have w7 : c ≠ ' ' := fun hc => by rw [hc] at h; exact absurd h (by decide)
  have w8 : c ≠ '﻿' := fun hc => by rw [hc] at h; exact absurd h (by decide)
  refine ⟨fun hc => by rw [hc] at h; exact absurd h (by decide),
    fun hc => by rw [hc] at h; exact absurd h (by decide),
    fun hc => by rw [hc] at h; exact absurd h (by decide),
    fun hc => by rw [hc] at h; exact absurd h (by decide),
    fun hc => by rw [hc] at h; exact absurd h (by decide),
    by simp [isWsJson, w1, w2, w3, w4, w5, w6, w7, w8],
    fun hc => by rw [hc] at h; exact absurd h (by decide),
    fun hc => by rw [hc] at h; exact absurd h (by decide),
    fun hc => by rw [hc] at h; exact absurd h (by decide),
    fun hc => by rw [hc] at h; exact absurd h (by decide),
    fun hc => by rw [hc] at h; exact absurd h (by decide),
    fun hc => by rw [hc] at h; exact absurd h (by decide),
    fun hc => by rw [hc] at h; exact absurd h (by decide),
    fun hc => by rw [hc] at h; exact absurd h (by decide),
    fun hc => by rw [hc] at h; exact absurd h (by decide)⟩

theorem natRepr_cons (n : Nat) : ∃ c t, natRepr n = c :: t ∧ isDigitCh c = true ∧
    (1 ≤ n → c ≠ '0') := by
  induction n using Nat.strong_induction_on with
  | _ n ih =>
    rw [natRepr_eq]
    by_cases h : n < 10
    · refine ⟨digitChar n, [], by simp [h], (digitChar_facts n h).1, ?_⟩
      intro h1
      interval_cases n <;> decide
    · obtain ⟨c, t, hct, hc, h0⟩ := ih (n / 10) (Nat.div_lt_self (by omega) (by omega))
      refine ⟨c, t ++ [digitChar (n % 10)], ?_, hc, fun _ => h0 (by omega)⟩
      rw [if_neg h, hct]
      rfl

theorem natRepr_digits (n : Nat) : ∀ c ∈ natRepr n, isDigitCh c = true := by
  induction n using Nat.strong_induction_on with
  | _ n ih =>
    rw [natRepr_eq]
    by_cases h : n < 10
    · rw [if_pos h]
      intro c hc
      rw [List.mem_singleton] at hc
      rw [hc]
      exact (digitChar_facts n h).1
    · rw [if_neg h]
      intro c hc
      rw [List.mem_append] at hc
      rcases hc with hc | hc
      · exact ih (n / 10) (Nat.div_lt_self (by omega) (by omega)) c hc
      · rw [List.mem_singleton] at hc
        rw [hc]
        exact (digitChar_facts (n % 10) (by omega)).1

theorem natOfDigits_append (xs : List Char) (c : Char) :
    natOfDigits (xs ++ [c]) = 10 * natOfDigits xs + digitVal c := by
  unfold natOfDigits
  rw [List.foldl_append]
  rfl

theorem natOfDigits_natRepr (n : Nat) : natOfDigits (natRepr n) = n := by
  induction n using Nat.strong_induction_on with
  | _ n ih =>
    rw [natRepr_eq]
    by_cases h : n < 10
    · rw [if_pos h]
      show 10 * 0 + digitVal (digitChar n) = n
      rw [(digitChar_facts n h).2]
      omega
    · rw [if_neg h, natOfDigits_append,
        ih (n / 10) (Nat.div_lt_self (by omega) (by omega)),
        (digitChar_facts (n % 10) (by omega)).2]
      omega

theorem parseDigits_append (ds : List Char) (r : JStr)
    (hds : ∀ c ∈ ds, isDigitCh c = true) (hr : notDigitStart r) :
    parseDigits (ds ++ r) = (ds, r) := by
  induction ds with
  | nil =>
    rw [List.nil_append]
    cases r with
    | nil => rfl
    | cons c t =>
      unfold parseDigits
      unfold notDigitStart at hr
      rw [hr]
      simp
  | cons c t ih =>
    rw [List.cons_append]
    unfold parseDigits
    rw [hds c (by simp)]
    simp only [if_true]
    rw [ih (fun x hx => hds x (by simp [hx]))]

/-! ### Number token round trip -/

theorem numStop_notDigitStart {r : JStr} (h : numStop r) : notDigitStart r := by
  cases r with
  | nil => trivial
  | cons c t =>
    unfold numStop numCont at h
    unfold notDigitStart
    simp only [Bool.or_eq_false_iff] at h
    exact h.1.1.1

theorem numStop_cons {c : Char} {t : JStr} (h : numStop (c :: t)) :
    isDigitCh c = false ∧ (c = '.') = False ∧ (c = 'e') = False ∧ (c = 'E') = False := by
  unfold numStop numCont at h
  simp only [Bool.or_eq_false_iff, decide_eq_false_iff_not] at h
  exact ⟨h.1.1.1, by simp [h.1.1.2], by simp [h.1.2], by simp [h.2]⟩

theorem parseDigits_natRepr (n : Nat) (r : JStr) (hr : notDigitStart r) :
    parseDigits (natRepr n ++ r) = (natRepr n, r) :=
  parseDigits_append _ r (natRepr_digits n) hr


/-! ### Number token round trip -/

theorem parseExpPart_no_e (neg : Bool) (ds fs : List Char) (rest : JStr) (h : numStop rest) :
    parseExpPart neg ds fs rest = some (mkNum neg ds fs false [], rest) := by
  cases rest with
  | nil => rfl
  | cons c t =>
    obtain ⟨_, _, he, hE⟩ := numStop_cons h
    simp [parseExpPart, he, hE]

theorem parseExpPart_with_e (neg : Bool) (ds fs : List Char) (e : Int) (_he : e ≠ 0)
    (rest : JStr) (h : numStop rest) :
    parseExpPart neg ds fs ('e' :: (intRepr e ++ rest)) =
      some (mkNum neg ds fs (e < 0) (natRepr e.natAbs), rest) := by
  have hpd := parseDigits_natRepr e.natAbs rest (numStop_notDigitStart h)
  obtain ⟨d, ds2, hct, hdig, _⟩ := natRepr_cons e.natAbs
  rw [hct] at hpd
  rw [List.cons_append] at hpd
  by_cases hneg : e < 0
  · have hir : intRepr e = '-' :: natRepr e.natAbs := by
      unfold intRepr
      rw [if_pos hneg]
    rw [hir, hct]
    simp [parseExpPart, hneg]
    rw [hpd]
  · have hir : intRepr e = natRepr e.toNat := by
      unfold intRepr
      rw [if_neg hneg]
    have habs : e.toNat = e.natAbs := by omega
    obtain ⟨hminus, _, _, _, hplus, _⟩ := isDigitCh_not_special hdig
    rw [hir, habs, hct]
    simp [parseExpPart, hneg, hminus, hplus]
    rw [hpd]

theorem parseFrac_natRepr (neg : Bool) (n : Nat) (e : Int) (rest : JStr) (h : numStop rest) :
    parseFrac neg (natRepr n) ((if e = 0 then [] else 'e' :: intRepr e) ++ rest) =
      some (((if neg then (-1 : Int) else 1) * (n : Int), e), rest) := by
  have hmk : ∀ eneg es, mkNum neg (natRepr n) [] eneg es =
      ((if neg then (-1 : Int) else 1) * (n : Int),
        (if eneg then -(natOfDigits es : Int) else (natOfDigits es : Int)) - 0) := by
    intro eneg es
    unfold mkNum
    rw [List.append_nil, natOfDigits_natRepr]
    rfl
  by_cases he : e = 0
  · subst he
    rw [if_pos rfl, List.nil_append]
    cases rest with
    | nil =>
      show parseExpPart neg (natRepr n) [] [] = _
      rw [parseExpPart_no_e neg (natRepr n) [] [] trivial, hmk]
      simp [natOfDigits]
    | cons c t =>
      obtain ⟨_, hdot, _, _⟩ := numStop_cons h
      simp only [parseFrac]
      rw [if_neg (by simp [hdot])]
      rw [parseExpPart_no_e neg (natRepr n) [] (c :: t) h, hmk]
      simp [natOfDigits]
  · rw [if_neg he, List.cons_append]
    simp only [parseFrac]
    rw [if_neg (by decide : ¬ (('e' : Char) = '.'))]
    rw [parseExpPart_with_e neg (natRepr n) [] e he rest h, hmk]
    by_cases hneg : e < 0
    · have h2 : -((e.natAbs : Nat) : Int) - 0 = e := by omega
      simp [hneg, natOfDigits_natRepr, h2, abs_of_neg hneg]
    · have h2 : ((e.natAbs : Nat) : Int) - 0 = e := by omega
      simp [hneg, natOfDigits_natRepr, h2]
      omega

theorem parseNumber_numRepr (m e : Int) (rest : JStr) (h : numStop rest) :
    parseNumber (numRepr m e ++ rest) = some ((m, e), rest) := by
  have hE : notDigitStart ((if e = 0 then [] else 'e' :: intRepr e) ++ rest) := by
    by_cases he : e = 0
    · rw [if_pos he, List.nil_append]
      exact numStop_notDigitStart h
    · rw [if_neg he, List.cons_append]
      show isDigitCh 'e' = false
      decide
  unfold numRepr
  rw [List.append_assoc]
  by_cases hm : m < 0
  · have hir : intRepr m = '-' :: natRepr m.natAbs := by
      unfold intRepr
      rw [if_pos hm]
    have hpd := parseDigits_natRepr m.natAbs _ hE
    obtain ⟨d, ds2, hct, hdig, h0⟩ := natRepr_cons m.natAbs
    have hd0 : d ≠ '0' := h0 (by omega)
    rw [hct] at hpd
    rw [List.cons_append] at hpd
    rw [hir, hct]
    simp only [List.cons_append, parseNumber]
    simp [hpd, hd0]
    rw [← hct, parseFrac_natRepr true m.natAbs e rest h]
    have hv : (if (true : Bool) then (-1 : Int) else 1) * (m.natAbs : Int) = m := by
      show (-1 : Int) * (m.natAbs : Int) = m
      omega
    rw [hv]
  · by_cases hm0 : m = 0
    · subst hm0
      have hir : intRepr 0 = natRepr 0 := by rfl
      have h00 : natRepr 0 = ['0'] := by rfl
      rw [hir, h00]
      have hpd : parseDigits ('0' :: ((if e = 0 then [] else 'e' :: intRepr e) ++ rest)) =
          (['0'], (if e = 0 then [] else 'e' :: intRepr e) ++ rest) := by
        have := parseDigits_append ['0'] _ (by intro c hc; rw [List.mem_singleton] at hc; rw [hc]; decide) hE
        rw [List.singleton_append] at this
        exact this
      simp only [List.cons_append, List.nil_append, parseNumber]
      simp [hpd]
      have hf := parseFrac_natRepr false 0 e rest h
      rw [h00] at hf
      rw [hf]
      simp
    · have hmp : 0 < m := by omega
      have hir : intRepr m = natRepr m.toNat := by
        unfold intRepr
        rw [if_neg hm]
      have hpd := parseDigits_natRepr m.toNat _ hE
      obtain ⟨d, ds2, hct, hdig, h0⟩ := natRepr_cons m.toNat
      have hd0 : d ≠ '0' := h0 (by omega)
      obtain ⟨hminus, _⟩ := isDigitCh_not_special hdig
      rw [hct] at hpd
      rw [List.cons_append] at hpd
      rw [hir, hct]
      simp only [List.cons_append, parseNumber]
      simp [hpd, hd0, hminus]
      rw [← hct, parseFrac_natRepr false m.toNat e rest h]
      have hv : (if (false : Bool) then (-1 : Int) else 1) * (m.toNat : Int) = m := by
        show (1 : Int) * (m.toNat : Int) = m
        omega
      rw [hv]

/-! ### String literal round trip -/

theorem hexVal_hexDigit (n : Nat) (h : n < 16) : hexVal (hexDigit n) = some n := by
  interval_cases n <;> decide

theorem parseStringBody_escStr (s : JStr) (rest : JStr) :
    parseStringBody (escStr s ++ ('"' :: rest)) = some (s, rest) := by
  induction s with
  | nil =>
    show parseStringBody ('"' :: rest) = some ([], rest)
    conv_lhs => rw [parseStringBody.eq_def]
    simp
  | cons c t ih =>
    show parseStringBody ((escC c ++ escStr t) ++ ('"' :: rest)) = some (c :: t, rest)
    rw [List.append_assoc]
    by_cases h1 : c = '"'
    · subst h1
      rw [show escC '"' = ['\\', '"'] from by decide]
      conv_lhs => rw [parseStringBody.eq_def]
      simp [escapeOf, ih]
    · by_cases h2 : c = '\\'
      · subst h2
        rw [show escC '\\' = ['\\', '\\'] from by decide]
        conv_lhs => rw [parseStringBody.eq_def]
        simp [escapeOf, ih]
      · by_cases h3 : c = '\n'
        · subst h3
          rw [show escC '\n' = ['\\', 'n'] from by decide]
          conv_lhs => rw [parseStringBody.eq_def]
          simp [escapeOf, ih]
        · by_cases h4 : c = '\r'
          · subst h4
            rw [show escC '\r' = ['\\', 'r'] from by decide]
            conv_lhs => rw [parseStringBody.eq_def]
            simp [escapeOf, ih]
          · by_cases h5 : c = '\t'
            · subst h5
              rw [show escC '\t' = ['\\', 't'] from by decide]
              conv_lhs => rw [parseStringBody.eq_def]
              simp [escapeOf, ih]
            · by_cases h6 : c = '\x08'
              · subst h6
                rw [show escC '\x08' = ['\\', 'b'] from by decide]
                conv_lhs => rw [parseStringBody.eq_def]
                simp [escapeOf, ih]
              · by_cases h7 : c = '\x0c'
                · subst h7
                  rw [show escC '\x0c' = ['\\', 'f'] from by decide]
                  conv_lhs => rw [parseStringBody.eq_def]
                  simp [escapeOf, ih]
                · by_cases h8 : c.toNat < 32
                  · have he : escC c = ['\\', 'u', '0', '0',
                        hexDigit (c.toNat / 16), hexDigit (c.toNat % 16)] := by
                      unfold escC
                      rw [if_neg h1, if_neg h2, if_neg h3, if_neg h4, if_neg h5,
                        if_neg h6, if_neg h7, if_pos h8]
                    rw [he]
                    have hv0 : hexVal '0' = some 0 := by decide
                    have hv1 : hexVal (hexDigit (c.toNat / 16)) = some (c.toNat / 16) :=
                      hexVal_hexDigit _ (by omega)
                    have hv2 : hexVal (hexDigit (c.toNat % 16)) = some (c.toNat % 16) :=
                      hexVal_hexDigit _ (by omega)
                    have harith : c.toNat / 16 * 16 + c.toNat % 16 = c.toNat := by omega
                    conv_lhs => rw [parseStringBody.eq_def]
                    simp [hv0, hv1, hv2, ih, harith, Char.ofNat_toNat]
                  · have he : escC c = [c] := by
                      unfold escC
                      rw [if_neg h1, if_neg h2, if_neg h3, if_neg h4, if_neg h5,
                        if_neg h6, if_neg h7, if_neg h8]
                    rw [he, List.cons_append, List.nil_append]
                    conv_lhs => rw [parseStringBody.eq_def]
                    simp [h1, h2, h8, ih]

/-! ### Printed values parse back -/

theorem sz_pos (v : Json) : 1 ≤ sz v := by
  cases v <;> simp [sz] <;> omega

theorem szItems_pos (t : List Json) : 1 ≤ szItems t := by
  cases t with
  | nil => simp [szItems]
  | cons x t2 =>
    simp [szItems]
    omega

theorem szFields_pos (t : List (JStr × Json)) : 1 ≤ szFields t := by
  cases t with
  | nil => simp [szFields]
  | cons kv t2 =>
    obtain ⟨k, v⟩ := kv
    simp [szFields]
    omega

theorem ppItems_cons (ind : Nat) (x : Json) (xs : List Json) :
    ppItems ind (x :: xs) = ('\n' :: (spacesJ ind ++ ppV ind x)) ++ ppItemsSep ind xs := by
  cases xs <;> rfl

theorem ppFields_cons (ind : Nat) (k : JStr) (v : Json) (kvs : List (JStr × Json)) :
    ppFields ind ((k, v) :: kvs) =
      ('\n' :: (spacesJ ind ++ (quoteStr k ++ (':' :: (' ' :: ppV ind v))))) ++
        ppFieldsSep ind kvs := by
  cases kvs <;> rfl

theorem ppV_head (ind : Nat) (v : Json) : ∃ c t, ppV ind v = c :: t ∧ isWsJson c = false ∧
    ¬ (c = ']') ∧ ¬ (c = '}') := by
  cases v with
  | null => exact ⟨'n', ['u', 'l', 'l'], rfl, by decide, by decide, by decide⟩
  | bool b =>
    cases b with
    | true => exact ⟨'t', ['r', 'u', 'e'], rfl, by decide, by decide, by decide⟩
    | false => exact ⟨'f', ['a', 'l', 's', 'e'], rfl, by decide, by decide, by decide⟩
  | num m e =>
    show ∃ c t, numRepr m e = c :: t ∧ _
    unfold numRepr
    by_cases hm : m < 0
    · unfold intRepr
      rw [if_pos hm, List.cons_append]
      exact ⟨'-', _, rfl, by decide, by decide, by decide⟩
    · unfold intRepr
      rw [if_neg hm]
      obtain ⟨d, t, hct, hdig, _⟩ := natRepr_cons m.toNat
      obtain ⟨_, _, _, _, _, hws, hrb, hcb, _⟩ := isDigitCh_not_special hdig
      exact ⟨d, t ++ _, by rw [hct, List.cons_append], hws, hrb, hcb⟩
  | inf b => exact ⟨'n', ['u', 'l', 'l'], rfl, by decide, by decide, by decide⟩
  | str s => exact ⟨'"', _, rfl, by decide, by decide, by decide⟩
  | arr xs =>
    cases xs with
    | nil => exact ⟨'[', [']'], rfl, by decide, by decide, by decide⟩
    | cons x t => exact ⟨'[', _, rfl, by decide, by decide, by decide⟩
  | obj kvs =>
    cases kvs with
    | nil => exact ⟨'{', ['}'], rfl, by decide, by decide, by decide⟩
    | cons kv t => exact ⟨'{', _, rfl, by decide, by decide, by decide⟩

theorem parse_pp_main : ∀ f : Nat,
    (∀ (v : Json) (ind : Nat) (s rest : JStr), skipWs s = ppV ind v ++ rest →
      sz v ≤ f → numStop rest → jfinite v = true → parseValue f s = some (v, rest)) ∧
    (∀ (t acc : List Json) (ind : Nat) (rest : JStr),
      szItems t ≤ f → jfiniteItems t = true →
      parseElemsTail f acc
        (ppItemsSep (ind + 2) t ++ ('\n' :: (spacesJ ind ++ (']' :: rest)))) =
        some (.arr (acc ++ t), rest)) ∧
    (∀ (t acc : List (JStr × Json)) (ind : Nat) (rest : JStr),
      szFields t ≤ f → jfiniteFields t = true →
      parseMembersTail f acc
        (ppFieldsSep (ind + 2) t ++ ('\n' :: (spacesJ ind ++ ('}' :: rest)))) =
        some (.obj (acc ++ t), rest)) := by
  intro f
  induction f using Nat.strong_induction_on with
  | _ f ih =>
    refine ⟨?_, ?_, ?_⟩
    · intro v ind s rest hs hsz hstop hfin
      match f, hsz with
      | 0, hsz => exact absurd hsz (by have := sz_pos v; omega)
      | f + 1, hsz =>
      conv_lhs => rw [parseValue.eq_def]
      simp only [hs]
      cases v with
      | null =>
        rw [show ppV ind Json.null = ['n', 'u', 'l', 'l'] from rfl]
        simp [show isDigitCh 'n' = false from by decide]
      | bool b =>
        cases b with
        | true =>
          rw [show ppV ind (Json.bool true) = ['t', 'r', 'u', 'e'] from rfl]
          simp [show isDigitCh 't' = false from by decide]
        | false =>
          rw [show ppV ind (Json.bool false) = ['f', 'a', 'l', 's', 'e'] from rfl]
          simp [show isDigitCh 'f' = false from by decide]
      | num m e =>
        rw [show ppV ind (Json.num m e) = numRepr m e from rfl]
        obtain ⟨c, t, hct, hnum⟩ : ∃ c t, numRepr m e = c :: t ∧
            (decide (c = '-') || isDigitCh c) = true := by
          unfold numRepr intRepr
          by_cases hm : m < 0
          · rw [if_pos hm, List.cons_append]
            exact ⟨'-', _, rfl, by decide⟩
          · rw [if_neg hm]
            obtain ⟨d, t2, hct, hdig, _⟩ := natRepr_cons m.toNat
            rw [hct, List.cons_append]
            exact ⟨d, _, rfl, by simp [hdig]⟩
        have hdo : dblOverflow m e = false := by
          simpa [jfinite] using hfin
        have hp := parseNumber_numRepr m e rest hstop
        rw [hct] at hp ⊢
        simp only [List.cons_append] at hp ⊢
        simp only [hnum, if_true]
        rw [hp]
        simp [hdo]
      | inf b => simp [jfinite] at hfin
      | str s2 =>
        rw [show ppV ind (Json.str s2) = '"' :: (escStr s2 ++ ['"']) from rfl]
        simp only [List.cons_append, List.append_assoc, List.singleton_append]
        simp [show isDigitCh '"' = false from by decide, parseStringBody_escStr]
      | arr xs =>
        cases xs with
        | nil =>
          rw [show ppV ind (Json.arr []) = ['[', ']'] from rfl]
          simp only [List.cons_append, List.nil_append]
          simp [show isDigitCh '[' = false from by decide]
          have hf : 1 ≤ f := by
            have h3 : sz (Json.arr []) = 3 := rfl
            omega
          match f, hf with
          | g + 1, _ =>
          conv_lhs => rw [parseElems.eq_def]
          simp [skipWs_not_ws _ (by decide : isWsJson ']' = false)]
        | cons x xs2 =>
          rw [show ppV ind (Json.arr (x :: xs2)) =
            '[' :: (ppItems (ind + 2) (x :: xs2) ++ ('\n' :: (spacesJ ind ++ [']']))) from rfl]
          simp only [List.cons_append, List.append_assoc, List.singleton_append]
          simp only [show ((decide ('[' = '-') || isDigitCh '[')) = false from by decide,
            Bool.false_eq_true, if_false,
            if_neg (show ¬ (('[' : Char) = 'n') from by decide),
            if_neg (show ¬ (('[' : Char) = 't') from by decide),
            if_neg (show ¬ (('[' : Char) = 'f') from by decide),
            if_neg (show ¬ (('[' : Char) = '"') from by decide),
            if_pos (show ('[' : Char) = '[' from rfl)]
          have hszx : sz (Json.arr (x :: xs2)) = 3 + sz x + szItems xs2 := by
            simp [sz, szItems]
            omega
          have hf : 2 ≤ f := by
            have hx := sz_pos x
            have hi := szItems_pos xs2
            omega
          match f, hf with
          | g + 1, _ =>
          obtain ⟨c, t, hct, hws, hrb, _⟩ := ppV_head (ind + 2) x
          have hnumREST : numStop (ppItemsSep (ind + 2) xs2 ++
              ('\n' :: (spacesJ ind ++ (']' :: rest)))) := by
            cases xs2 with
            | nil => exact (by decide : numCont '\n' = false)
            | cons y ys =>
              show numCont ',' = false
              decide
          have hskip : skipWs (ppV (ind + 2) x ++ (ppItemsSep (ind + 2) xs2 ++
              ('\n' :: (spacesJ ind ++ (']' :: rest))))) =
              ppV (ind + 2) x ++ (ppItemsSep (ind + 2) xs2 ++
              ('\n' :: (spacesJ ind ++ (']' :: rest)))) := by
            rw [hct, List.cons_append]
            exact skipWs_not_ws _ hws
          have hfin2 : jfinite x = true ∧ jfiniteItems xs2 = true := by
            simpa [jfinite, jfiniteItems, Bool.and_eq_true] using hfin
          have hP := (ih g (by omega)).1 x (ind + 2)
            (c :: (t ++ (ppItemsSep (ind + 2) xs2 ++ ('\n' :: (spacesJ ind ++ (']' :: rest))))))
            (ppItemsSep (ind + 2) xs2 ++ ('\n' :: (spacesJ ind ++ (']' :: rest))))
            (by rw [skipWs_not_ws _ hws, ← List.cons_append, ← hct]) (by omega) hnumREST
            hfin2.1
          have hQ := (ih g (by omega)).2.1 xs2 [x] ind rest (by omega) hfin2.2
          conv_lhs => rw [parseElems.eq_def]
          rw [ppItems_cons]
          simp only [List.cons_append, List.append_assoc, skipWs_nl_spaces, hskip]
          simp only [hct, List.cons_append]
          simp only [if_true, List.nil_append]
          rw [skipWs_not_ws _ hws]
          simp only [if_neg hrb]
          simp only [hP]
          simp only [hQ]
          simp
      | obj kvs =>
        cases kvs with
        | nil =>
          rw [show ppV ind (Json.obj []) = ['{', '}'] from rfl]
          simp only [List.cons_append, List.nil_append]
          simp [show isDigitCh '{' = false from by decide]
          have hf : 1 ≤ f := by
            have h3 : sz (Json.obj []) = 3 := rfl
            omega
          match f, hf with
          | g + 1, _ =>
          conv_lhs => rw [parseMembers.eq_def]
          simp [skipWs_not_ws _ (by decide : isWsJson '}' = false)]
        | cons kv kvs2 =>
          obtain ⟨k, v⟩ := kv
          rw [show ppV ind (Json.obj ((k, v) :: kvs2)) =
            '{' :: (ppFields (ind + 2) ((k, v) :: kvs2) ++
              ('\n' :: (spacesJ ind ++ ['}']))) from rfl]
          simp only [List.cons_append, List.append_assoc, List.singleton_append]
          simp only [show ((decide ('{' = '-') || isDigitCh '{')) = false from by decide,
            Bool.false_eq_true, if_false,
            if_neg (show ¬ (('{' : Char) = 'n') from by decide),
            if_neg (show ¬ (('{' : Char) = 't') from by decide),
            if_neg (show ¬ (('{' : Char) = 'f') from by decide),
            if_neg (show ¬ (('{' : Char) = '"') from by decide),
            if_neg (show ¬ (('{' : Char) = '[') from by decide),
            if_pos (show ('{' : Char) = '{' from rfl)]
          have hsz2 : sz (Json.obj ((k, v) :: kvs2)) = 3 + sz v + szFields kvs2 := by
            simp [sz, szFields]
            omega
          have hf : 2 ≤ f := by
            have hv := sz_pos v
            have hk := szFields_pos kvs2
            omega
          match f, hf with
          | g + 1, _ =>
          have hnumREST : numStop (ppFieldsSep (ind + 2) kvs2 ++
              ('\n' :: (spacesJ ind ++ ('}' :: rest)))) := by
            cases kvs2 with
            | nil => exact (by decide : numCont '\n' = false)
            | cons y ys =>
              show numCont ',' = false
              decide
          obtain ⟨cv, tv, hctv, hwsv, _, _⟩ := ppV_head (ind + 2) v
          have hfin2 : jfinite v = true ∧ jfiniteFields kvs2 = true := by
            simpa [jfinite, jfiniteFields, Bool.and_eq_true] using hfin
          have hP := (ih g (by omega)).1 v (ind + 2)
            (' ' :: (ppV (ind + 2) v ++ (ppFieldsSep (ind + 2) kvs2 ++
              ('\n' :: (spacesJ ind ++ ('}' :: rest))))))
            (ppFieldsSep (ind + 2) kvs2 ++ ('\n' :: (spacesJ ind ++ ('}' :: rest))))
            (by
              rw [skipWs_cons_ws _ (by decide : isWsJson ' ' = true), hctv, List.cons_append]
              exact skipWs_not_ws _ hwsv)
            (by omega) hnumREST hfin2.1
          have hR := (ih g (by omega)).2.2 kvs2 [(k, v)] ind rest (by omega) hfin2.2
          conv_lhs => rw [parseMembers.eq_def]
          rw [ppFields_cons]
          simp only [quoteStr, List.cons_append, List.append_assoc, List.singleton_append,
            skipWs_nl_spaces]
          rw [skipWs_not_ws _ (by decide : isWsJson '"' = false)]
          simp only [if_neg (show ¬ (('"' : Char) = '}') from by decide),
            if_pos (show ('"' : Char) = '"' from rfl)]
          simp only [parseStringBody_escStr, if_true, List.nil_append]
          rw [skipWs_not_ws _ (by decide : isWsJson ':' = false)]
          simp only [if_pos (show (':' : Char) = ':' from rfl)]
          simp only [hP]
          simp only [hR]
          simp
    · intro t acc ind rest hsz hfin
      have hf : 1 ≤ f := by
        have := szItems_pos t
        omega
      match f, hf with
      | g + 1, _ =>
      cases t with
      | nil =>
        rw [show ppItemsSep (ind + 2) ([] : List Json) = [] from rfl, List.nil_append]
        conv_lhs => rw [parseElemsTail.eq_def]
        simp only [skipWs_nl_spaces]
        rw [skipWs_not_ws _ (by decide : isWsJson ']' = false)]
        simp
      | cons y t2 =>
        rw [show ppItemsSep (ind + 2) (y :: t2) = ',' :: ppItems (ind + 2) (y :: t2) from rfl]
        rw [ppItems_cons]
        simp only [List.cons_append, List.append_assoc]
        obtain ⟨c, t3, hct, hws, hrb, _⟩ := ppV_head (ind + 2) y
        have hnumREST : numStop (ppItemsSep (ind + 2) t2 ++
            ('\n' :: (spacesJ ind ++ (']' :: rest)))) := by
          cases t2 with
          | nil => exact (by decide : numCont '\n' = false)
          | cons z zs =>
            show numCont ',' = false
            decide
        have hfin2 : jfinite y = true ∧ jfiniteItems t2 = true := by
          simpa [jfiniteItems, Bool.and_eq_true] using hfin
        have hP := (ih g (by omega)).1 y (ind + 2)
          ('\n' :: (spacesJ (ind + 2) ++ (ppV (ind + 2) y ++ (ppItemsSep (ind + 2) t2 ++
            ('\n' :: (spacesJ ind ++ (']' :: rest)))))))
          (ppItemsSep (ind + 2) t2 ++ ('\n' :: (spacesJ ind ++ (']' :: rest))))
          (by
            rw [skipWs_nl_spaces, hct, List.cons_append]
            exact skipWs_not_ws _ hws)
          (by
            have : szItems (y :: t2) = 1 + sz y + szItems t2 := rfl
            omega)
          hnumREST hfin2.1
        have hQ2 := (ih g (by omega)).2.1 t2 (acc ++ [y]) ind rest
          (by
            have : szItems (y :: t2) = 1 + sz y + szItems t2 := rfl
            omega)
          hfin2.2
        conv_lhs => rw [parseElemsTail.eq_def]
        simp only [skipWs_not_ws _ (by decide : isWsJson ',' = false)]
        simp only [if_neg (show ¬ ((',' : Char) = ']') from by decide),
          if_pos (show (',' : Char) = ',' from rfl)]
        simp only [hP]
        simp only [hQ2]
        simp
    · intro t acc ind rest hsz hfin
      have hf : 1 ≤ f := by
        have := szFields_pos t
        omega
      match f, hf with
      | g + 1, _ =>
      cases t with
      | nil =>
        rw [show ppFieldsSep (ind + 2) ([] : List (JStr × Json)) = [] from rfl,
          List.nil_append]
        conv_lhs => rw [parseMembersTail.eq_def]
        simp only [skipWs_nl_spaces]
        rw [skipWs_not_ws _ (by decide : isWsJson '}' = false)]
        simp
      | cons kv t2 =>
        obtain ⟨k, v⟩ := kv
        rw [show ppFieldsSep (ind + 2) ((k, v) :: t2) =
          ',' :: ppFields (ind + 2) ((k, v) :: t2) from rfl]
        rw [ppFields_cons]
        simp only [List.cons_append, List.append_assoc]
        obtain ⟨cv, tv, hctv, hwsv, _, _⟩ := ppV_head (ind + 2) v
        have hnumREST : numStop (ppFieldsSep (ind + 2) t2 ++
            ('\n' :: (spacesJ ind ++ ('}' :: rest)))) := by
          cases t2 with
          | nil => exact (by decide : numCont '\n' = false)
          | cons z zs =>
            show numCont ',' = false
            decide
        have hszf : szFields ((k, v) :: t2) = 1 + sz v + szFields t2 := rfl
        have hfin2 : jfinite v = true ∧ jfiniteFields t2 = true := by
          simpa [jfiniteFields, Bool.and_eq_true] using hfin
        have hP := (ih g (by omega)).1 v (ind + 2)
          (' ' :: (ppV (ind + 2) v ++ (ppFieldsSep (ind + 2) t2 ++
            ('\n' :: (spacesJ ind ++ ('}' :: rest))))))
          (ppFieldsSep (ind + 2) t2 ++ ('\n' :: (spacesJ ind ++ ('}' :: rest))))
          (by
            rw [skipWs_cons_ws _ (by decide : isWsJson ' ' = true), hctv, List.cons_append]
            exact skipWs_not_ws _ hwsv)
          (by omega) hnumREST hfin2.1
        have hR2 := (ih g (by omega)).2.2 t2 (acc ++ [(k, v)]) ind rest (by omega) hfin2.2
        conv_lhs => rw [parseMembersTail.eq_def]
        simp only [skipWs_not_ws _ (by decide : isWsJson ',' = false)]
        simp only [if_neg (show ¬ ((',' : Char) = '}') from by decide),
          if_pos (show (',' : Char) = ',' from rfl)]
        simp only [skipWs_nl_spaces, quoteStr, List.cons_append, List.append_assoc,
          List.singleton_append]
        rw [skipWs_not_ws _ (by decide : isWsJson '"' = false)]
        simp only [if_pos (show ('"' : Char) = '"' from rfl)]
        simp only [parseStringBody_escStr, if_true, List.nil_append]
        rw [skipWs_not_ws _ (by decide : isWsJson ':' = false)]
        simp only [if_pos (show (':' : Char) = ':' from rfl)]
        simp only [hP]
        simp only [hR2]
        simp

theorem sz_le_main : ∀ N : Nat,
    (∀ v : Json, sizeOf v ≤ N → ∀ ind : Nat, sz v ≤ 2 * (ppV ind v).length + 2) ∧
    (∀ xs : List Json, sizeOf xs ≤ N → ∀ ind : Nat, 1 ≤ ind →
      szItems xs ≤ 2 * (ppItems ind xs).length + 1) ∧
    (∀ kvs : List (JStr × Json), sizeOf kvs ≤ N → ∀ ind : Nat, 1 ≤ ind →
      szFields kvs ≤ 2 * (ppFields ind kvs).length + 1) := by
  intro N
  induction N using Nat.strong_induction_on with
  | _ N ih =>
    refine ⟨?_, ?_, ?_⟩
    · intro v hv ind
      cases v with
      | null =>
        have h1 : sz Json.null = 1 := rfl
        omega
      | bool b =>
        have h1 : sz (Json.bool b) = 1 := rfl
        omega
      | num m e =>
        have h1 : sz (Json.num m e) = 1 := rfl
        omega
      | inf b =>
        have h1 : sz (Json.inf b) = 1 := rfl
        omega
      | str s2 =>
        have h1 : sz (Json.str s2) = 1 := rfl
        omega
      | arr xs =>
        cases xs with
        | nil =>
          have h1 : sz (Json.arr []) = 3 := rfl
          have h2 : (ppV ind (Json.arr [])).length = 2 := rfl
          omega
        | cons x t =>
          have h1 : sz (Json.arr (x :: t)) = 2 + szItems (x :: t) := rfl
          have hlen : (ppV ind (Json.arr (x :: t))).length =
              (ppItems (ind + 2) (x :: t)).length + ind + 3 := by
            rw [show ppV ind (Json.arr (x :: t)) =
              '[' :: (ppItems (ind + 2) (x :: t) ++ ('\n' :: (spacesJ ind ++ [']']))) from rfl]
            simp [spacesJ]
            omega
          have hsub : sizeOf (x :: t) < N := by
            have hs : sizeOf (Json.arr (x :: t)) = 1 + sizeOf (x :: t) := by simp
            omega
          have hIH := (ih (sizeOf (x :: t)) hsub).2.1 (x :: t) (le_refl _) (ind + 2) (by omega)
          omega
      | obj kvs =>
        cases kvs with
        | nil =>
          have h1 : sz (Json.obj []) = 3 := rfl
          have h2 : (ppV ind (Json.obj [])).length = 2 := rfl
          omega
        | cons kv t =>
          have h1 : sz (Json.obj (kv :: t)) = 2 + szFields (kv :: t) := rfl
          have hlen : (ppV ind (Json.obj (kv :: t))).length =
              (ppFields (ind + 2) (kv :: t)).length + ind + 3 := by
            rw [show ppV ind (Json.obj (kv :: t)) =
              '{' :: (ppFields (ind + 2) (kv :: t) ++ ('\n' :: (spacesJ ind ++ ['}']))) from rfl]
            simp [spacesJ]
            omega
          have hsub : sizeOf (kv :: t) < N := by
            have hs : sizeOf (Json.obj (kv :: t)) = 1 + sizeOf (kv :: t) := by simp
            omega
          have hIH := (ih (sizeOf (kv :: t)) hsub).2.2 (kv :: t) (le_refl _) (ind + 2) (by omega)
          omega
    · intro xs hxs ind hind
      cases xs with
      | nil =>
        have h1 : szItems ([] : List Json) = 1 := rfl
        omega
      | cons x t =>
        have h1 : szItems (x :: t) = 1 + sz x + szItems t := rfl
        have hlen : (ppItems ind (x :: t)).length =
            1 + ind + (ppV ind x).length + (ppItemsSep ind t).length := by
          rw [ppItems_cons]
          simp [spacesJ]
          omega
        have hsx : sizeOf x < N := by
          have hs : sizeOf (x :: t) = 1 + sizeOf x + sizeOf t := by simp
          have : 0 ≤ sizeOf t := by omega
          omega
        have hIHx := (ih (sizeOf x) hsx).1 x (le_refl _) ind
        cases t with
        | nil =>
          have h2 : szItems ([] : List Json) = 1 := rfl
          have h3 : (ppItemsSep ind ([] : List Json)).length = 0 := rfl
          omega
        | cons y t2 =>
          have h3 : (ppItemsSep ind (y :: t2)).length = 1 + (ppItems ind (y :: t2)).length := by
            rw [show ppItemsSep ind (y :: t2) = ',' :: ppItems ind (y :: t2) from rfl]
            simp
            omega
          have hst : sizeOf (y :: t2) < N := by
            have hs : sizeOf (x :: y :: t2) = 1 + sizeOf x + sizeOf (y :: t2) := by simp
            omega
          have hIHt := (ih (sizeOf (y :: t2)) hst).2.1 (y :: t2) (le_refl _) ind hind
          omega
    · intro kvs hkvs ind hind
      cases kvs with
      | nil =>
        have h1 : szFields ([] : List (JStr × Json)) = 1 := rfl
        omega
      | cons kv t =>
        obtain ⟨k, v⟩ := kv
        have h1 : szFields ((k, v) :: t) = 1 + sz v + szFields t := rfl
        have hlen : (ppFields ind ((k, v) :: t)).length =
            1 + ind + (quoteStr k).length + 2 + (ppV ind v).length +
              (ppFieldsSep ind t).length := by
          rw [ppFields_cons]
          simp [spacesJ]
          omega
        have hsv : sizeOf v < N := by
          have hs : sizeOf ((k, v) :: t) = 1 + (1 + sizeOf k + sizeOf v) + sizeOf t := by simp
          omega
        have hIHv := (ih (sizeOf v) hsv).1 v (le_refl _) ind
        cases t with
        | nil =>
          have h2 : szFields ([] : List (JStr × Json)) = 1 := rfl
          have h3 : (ppFieldsSep ind ([] : List (JStr × Json))).length = 0 := rfl
          omega
        | cons kv2 t2 =>
          have h3 : (ppFieldsSep ind (kv2 :: t2)).length =
              1 + (ppFields ind (kv2 :: t2)).length := by
            rw [show ppFieldsSep ind (kv2 :: t2) = ',' :: ppFields ind (kv2 :: t2) from rfl]
            simp
            omega
          have hst : sizeOf (kv2 :: t2) < N := by
            have hs : sizeOf ((k, v) :: kv2 :: t2) =
                1 + (1 + sizeOf k + sizeOf v) + sizeOf (kv2 :: t2) := by simp
            omega
          have hIHt := (ih (sizeOf (kv2 :: t2)) hst).2.2 (kv2 :: t2) (le_refl _) ind hind
          omega

theorem jsonParse_stringify (v : Json) (hfin : jfinite v = true) :
    jsonParse (jsonStringify2 v) = some v := by
  unfold jsonParse jsonStringify2
  have hsz : sz v ≤ 2 * (ppV 0 v).length + 2 :=
    (sz_le_main (sizeOf v)).1 v (le_refl _) 0
  obtain ⟨c, t, hct, hws, _, _⟩ := ppV_head 0 v
  have hskip : skipWs (ppV 0 v) = ppV 0 v ++ [] := by
    rw [List.append_nil, hct]
    exact skipWs_not_ws _ hws
  have hP := (parse_pp_main (2 * (ppV 0 v).length + 2)).1 v 0 (ppV 0 v) [] hskip hsz
    trivial hfin
  rw [hP]
  rfl

/-! ### Claim C3: JSON normalization -/

/-- Claim C3 (amended): on valid JSON whose 2-space pretty print stays
within 3000 characters, the block embeds the pretty-printed form, and
whenever the parsed structure contains no number outside the finite IEEE-754
double range, that form re-parses to exactly the parsed structure; a number
token that overflows to `Infinity` is printed as `null` and does not round
trip (see the counterexample).  When the pretty form exceeds 3000 characters
the block keeps its first 3000 characters plus the truncation notice; and on
invalid JSON the (total) function emits the raw-content label followed by at
most the first 2000 raw characters. -/
theorem json_content_roundtrip_and_fallback (content fn : JStr) (v : Json) :
    (jsonParse content = some v → (jsonStringify2 v).length ≤ 3000 →
      processJSONContent content fn =
        str "JSON File: " ++ fn ++ str "\nContent:\n" ++ jsonStringify2 v ∧
      (jfinite v = true → jsonParse (jsonStringify2 v) = some v)) ∧
    (jsonParse content = some v → 3000 < (jsonStringify2 v).length →
      processJSONContent content fn =
        str "JSON File: " ++ fn ++ str "\nStructure preview:\n" ++
          (jsonStringify2 v).take 3000 ++ str "...\n\n[Content truncated due to size]") ∧
    (jsonParse content = none →
      processJSONContent content fn =
        str "JSON File: " ++ fn ++ str "\nRaw content (invalid JSON):\n" ++
          content.take 2000 ∧
      (content.take 2000).length ≤ 2000) := by
  refine ⟨?_, ?_, ?_⟩
  · intro hp hlen
    refine ⟨?_, jsonParse_stringify v⟩
    unfold processJSONContent
    simp only [hp, if_neg (by omega : ¬ (jsonStringify2 v).length > 3000),
      List.append_assoc]
  · intro hp hlen
    unfold processJSONContent
    simp only [hp, if_pos (by omega : (jsonStringify2 v).length > 3000),
      List.append_assoc]
  · intro hp
    constructor
    · unfold processJSONContent
      simp only [hp]
    · have := List.length_take_le 2000 content
      omega

theorem escStr_replicate_a : ∀ n, escStr (List.replicate n 'a') = List.replicate n 'a' := by
  intro n
  induction n with
  | zero => rfl
  | succ m ihm =>
    rw [List.replicate_succ]
    show escC 'a' ++ escStr (List.replicate m 'a') = _
    rw [show escC 'a' = ['a'] from by decide, ihm]
    simp [List.replicate_succ]

theorem json_content_roundtrip_and_fallback_witness :
    jsonParse smallJson = some smallJsonVal ∧
    (jsonStringify2 smallJsonVal).length ≤ 3000 ∧
    jfinite smallJsonVal = true ∧
    processJSONContent smallJson (str "d.json") =
      str "JSON File: " ++ str "d.json" ++ str "\nContent:\n" ++ jsonStringify2 smallJsonVal ∧
    jsonParse (jsonStringify2 smallJsonVal) = some smallJsonVal ∧
    jsonParse bigJsonContent = some bigJsonVal ∧
    3000 < (jsonStringify2 bigJsonVal).length ∧
    processJSONContent bigJsonContent (str "d.json") =
      str "JSON File: " ++ str "d.json" ++ str "\nStructure preview:\n" ++
        (jsonStringify2 bigJsonVal).take 3000 ++ str "...\n\n[Content truncated due to size]" ∧
    jsonParse (str "\x7boops") = none ∧
    processJSONContent (str "\x7boops") (str "d.json") =
      str "JSON File: " ++ str "d.json" ++ str "\nRaw content (invalid JSON):\n" ++
        (str "\x7boops").take 2000 := by
  have h1 : jsonParse smallJson = some smallJsonVal := by rfl
  have hlen1 : (jsonStringify2 smallJsonVal).length ≤ 3000 := by decide
  have hfin1 : jfinite smallJsonVal = true := by decide
  have h2 : jsonParse bigJsonContent = some bigJsonVal :=
    jsonParse_stringify bigJsonVal (by rfl)
  have hlen2 : 3000 < (jsonStringify2 bigJsonVal).length := by
    rw [show jsonStringify2 bigJsonVal =
      '"' :: (escStr (List.replicate 3001 'a') ++ ['"']) from rfl]
    rw [escStr_replicate_a 3001]
    simp only [List.length_cons, List.length_append, List.length_replicate,
      List.length_singleton]
    omega
  have h3 : jsonParse (str "\x7boops") = none := by rfl
  have hthm1 := (json_content_roundtrip_and_fallback smallJson (str "d.json") smallJsonVal).1
    h1 hlen1
  have hthm2 :=
    (json_content_roundtrip_and_fallback bigJsonContent (str "d.json") bigJsonVal).2.1 h2 hlen2
  have hthm3 :=
    (json_content_roundtrip_and_fallback (str "\x7boops") (str "d.json") smallJsonVal).2.2 h3
  exact ⟨h1, hlen1, hfin1, hthm1.1, hthm1.2 hfin1, h2, hlen2, hthm2, h3, hthm3.1⟩

/-- Claim C3, counterexample: `1e999` is valid JSON and its pretty-printed
form stays well within 3000 characters, yet the embedded form does not parse
back to a structure equivalent to the input.  `JSON.parse` stores numbers as
IEEE-754 doubles, so `1e999` overflows to `Infinity`; `JSON.stringify`
renders a non-finite number as `null` (4 characters), and `null` re-parses
to the JSON null value, which is not the parsed input structure. -/
theorem json_roundtrip_overflow_counterexample :
    jsonParse (str "1e999") = some (Json.inf false) ∧
    (jsonStringify2 (Json.inf false)).length ≤ 3000 ∧
    processJSONContent (str "1e999") (str "d.json") =
      str "JSON File: " ++ str "d.json" ++ str "\nContent:\n" ++ str "null" ∧
    jsonParse (jsonStringify2 (Json.inf false)) = some Json.null ∧
    Json.null ≠ Json.inf false :=
  ⟨by rfl, by decide, by rfl, by rfl, fun h => Json.noConfusion h⟩
